import Mathlib

set_option maxRecDepth 4000

/-! Shallow embedding of the chksum-build parsing core (src/rust.rs, src/cargo.rs).

Inputs are modelled as `List Char` (the front of a `&str`).  A parser result is
either a success carrying the value and the unconsumed remainder, a recoverable
failure (nom's `Err::Error`; no combinator used by the crate produces
`Err::Failure`), or a panic (the `unreachable!` arms in the source's
tag-dispatch matches). -/

inductive PRes (α : Type) where
  | ok (val : α) (rest : List Char)
  | err
  | panic
deriving DecidableEq, Repr

def Parser (α : Type) : Type := List Char → PRes α

namespace Nom

/-- Embedding of nom's `bytes::complete::tag`: match a literal prefix and return it. -/
def tag (t : List Char) : Parser (List Char) := fun input =>
  if t.isPrefixOf input then .ok t (input.drop t.length) else .err

/-- Embedding of nom's `character::complete::digit1`: one or more ASCII digits. -/
def digit1 : Parser (List Char) := fun input =>
  let ds := input.takeWhile Char.isDigit
  if ds.isEmpty then .err else .ok ds (input.dropWhile Char.isDigit)

/-- Embedding of nom's `character::complete::alpha1`: one or more ASCII letters. -/
def alpha1 : Parser (List Char) := fun input =>
  let ds := input.takeWhile Char.isAlpha
  if ds.isEmpty then .err else .ok ds (input.dropWhile Char.isAlpha)

/-- Sequencing of parsers (nom's `tuple` / `?` chains). -/
def bindP (p : Parser α) (f : α → Parser β) : Parser β := fun input =>
  match p input with
  | .ok a rest => f a rest
  | .err => .err
  | .panic => .panic

/-- Ordered choice (nom's `alt`): the second alternative runs only on `Err::Error`. -/
def alt (p q : Parser α) : Parser α := fun input =>
  match p input with
  | .err => q input
  | r => r

/-- Embedding of nom's `combinator::opt`. -/
def opt (p : Parser α) : Parser (Option α) := fun input =>
  match p input with
  | .ok a rest => .ok (some a) rest
  | .err => .ok none input
  | .panic => .panic

/-- Embedding of nom's `combinator::not`: succeed (consuming nothing) iff `p` fails. -/
def notP (p : Parser α) : Parser Unit := fun input =>
  match p input with
  | .ok _ _ => .err
  | .err => .ok () input
  | .panic => .panic

/-- Embedding of nom's `combinator::peek`: run `p` without consuming input. -/
def peek (p : Parser α) : Parser α := fun input =>
  match p input with
  | .ok a _ => .ok a input
  | .err => .err
  | .panic => .panic

/-- Embedding of nom's `sequence::preceded`. -/
def preceded (p : Parser α) (q : Parser β) : Parser β :=
  bindP p fun _ => q

/-- Embedding of nom's `sequence::terminated`. -/
def terminated (p : Parser α) (q : Parser β) : Parser α :=
  bindP p fun a => bindP q fun _ => fun rest => .ok a rest

/-- Embedding of nom's `combinator::map_res`; a `none` from `f` is `Err::Error`. -/
def mapRes (p : Parser α) (f : α → Option β) : Parser β := fun input =>
  match p input with
  | .ok a rest =>
    match f a with
    | some b => .ok b rest
    | none => .err
  | .err => .err
  | .panic => .panic

/-- Embedding of nom's `combinator::recognize`: return the consumed slice. -/
def recognize (p : Parser α) : Parser (List Char) := fun input =>
  match p input with
  | .ok _ rest => .ok (input.take (input.length - rest.length)) rest
  | .err => .err
  | .panic => .panic

/-- Embedding of nom's `combinator::all_consuming`. -/
def allConsuming (p : Parser α) : Parser α := fun input =>
  match p input with
  | .ok a [] => .ok a []
  | .ok _ (_ :: _) => .err
  | .err => .err
  | .panic => .panic

end Nom

/-- Result of a `FromStr` entry point (error details are not inspected by any claim,
so `Error::Nom(..)` collapses to `err`; `panic` records a hit `unreachable!`). -/
inductive Res (α : Type) where
  | ok (val : α)
  | err
  | panic
deriving DecidableEq, Repr

/-- Embedding of `.finish()` + discarding the remainder, as the `FromStr` impls do. -/
def finishRes : PRes α → Res α
  | .ok a _ => .ok a
  | .err => .err
  | .panic => .panic

/-- Decimal value of a digit string (most significant first). -/
def digitsToNat (ds : List Char) : Nat := ds.foldl (fun acc c => acc * 10 + (c.toNat - 48)) 0

/-- Embedding of `str::parse::<usize>` as invoked through `map_res` on `digit1`
output: the input is a run of ASCII digits and parsing fails on u64 overflow. -/
def parseUsize (ds : List Char) : Option Nat :=
  if ds.isEmpty then none
  else if ds.all Char.isDigit then
    if digitsToNat ds < 2 ^ 64 then some (digitsToNat ds) else none
  else none

/-- Decimal rendering of a non-negative integer (`usize`'s `Display`). -/
def natToChars (n : Nat) : List Char :=
  if _h : n < 10 then [Char.ofNat (48 + n)]
  else natToChars (n / 10) ++ [Char.ofNat (48 + n % 10)]
termination_by n
decreasing_by exact Nat.div_lt_self (by omega) (by omega)

/-! Embedding of `chrono::NaiveDate::parse_from_str(s, "%Y-%m-%d")` on the inputs
this crate feeds it (strings produced by `recognize(digit1 - digit1 - digit1)`,
which always begin with a digit, so chrono's signed-year path is unreachable). -/

/-- A calendar date (`chrono::NaiveDate` as its year/month/day components). -/
structure NDate where
  year : Nat
  month : Nat
  day : Nat
deriving DecidableEq, Repr

/-- Proleptic Gregorian leap-year test used by chrono. -/
def isLeapYear (y : Nat) : Bool := y % 4 == 0 && (y % 100 != 0 || y % 400 == 0)

/-- Number of days in a month. -/
def daysInMonth (y m : Nat) : Nat :=
  if m = 2 then (if isLeapYear y then 29 else 28)
  else if m = 4 ∨ m = 6 ∨ m = 9 ∨ m = 11 then 30
  else 31

/-- Embedding of `NaiveDate::from_ymd_opt` (the year-range check cannot fire for
years of at most four digits). -/
def fromYmdOpt (y m d : Nat) : Option NDate :=
  if 1 ≤ m ∧ m ≤ 12 ∧ 1 ≤ d ∧ d ≤ daysInMonth y m then some ⟨y, m, d⟩ else none

/-- Embedding of chrono's `scan::number(s, 1, w)`: between one and `w` leading
ASCII digits. -/
def scanNumber (w : Nat) (s : List Char) : Option (Nat × List Char) :=
  let ds := (s.takeWhile Char.isDigit).take w
  if ds.isEmpty then none else some (digitsToNat ds, s.drop ds.length)

/-- Consume the literal `-` item of the `%Y-%m-%d` format string. -/
def expectDash : List Char → Option (List Char)
  | '-' :: r => some r
  | _ => none

/-- Embedding of `NaiveDate::parse_from_str(s, "%Y-%m-%d")`: year (up to four
digits), `-`, month (up to two digits), `-`, day (up to two digits), no trailing
input, then `from_ymd_opt` validation. -/
def chronoParseYmd (s : List Char) : Option NDate :=
  (scanNumber 4 s).bind fun yp =>
  (expectDash yp.2).bind fun s2 =>
  (scanNumber 2 s2).bind fun mp =>
  (expectDash mp.2).bind fun s4 =>
  (scanNumber 2 s4).bind fun dp =>
  if dp.2.isEmpty then fromYmdOpt yp.1 mp.1 dp.1 else none

/-! The crate's data model and parsers, following src/rust.rs and src/cargo.rs. -/

inductive Architecture where
  | i686
  | x86_64
deriving DecidableEq, Repr

namespace Architecture

def I686_STR : List Char := "i686".toList

def X86_64_STR : List Char := "x86_64".toList

/-- The `match architecture { ... }` dispatch inside `Architecture::nom_parse`. -/
def ofTag (s : List Char) : Option Architecture :=
  if s == I686_STR then some .i686
  else if s == X86_64_STR then some .x86_64
  else none

/-- Embedding of `Architecture::nom_parse`. -/
def nom_parse : Parser Architecture := fun input =>
  match Nom.alt (Nom.tag I686_STR) (Nom.tag X86_64_STR) input with
  | .ok s rest =>
    match ofTag s with
    | some a => .ok a rest
    | none => .panic
  | .err => .err
  | .panic => .panic

/-- Embedding of `Display for Architecture`. -/
def render : Architecture → List Char
  | .i686 => I686_STR
  | .x86_64 => X86_64_STR

end Architecture

inductive ChannelVersion where
  | MajorMinor (major minor : Nat)
  | MajorMinorPatch (major minor patch : Nat)
deriving DecidableEq, Repr

namespace ChannelVersion

/-- Embedding of `ChannelVersion::nom_parse_major_minor`. -/
def nom_parse_major_minor : Parser ChannelVersion :=
  Nom.bindP (Nom.mapRes (Nom.terminated Nom.digit1 (Nom.tag ['.'])) parseUsize) fun major =>
  Nom.bindP (Nom.mapRes Nom.digit1 parseUsize) fun minor =>
  Nom.bindP (Nom.peek (Nom.notP (Nom.tag ['.']))) fun _ =>
  fun rest => .ok (MajorMinor major minor) rest

/-- Embedding of `ChannelVersion::nom_parse_major_minor_patch`. -/
def nom_parse_major_minor_patch : Parser ChannelVersion :=
  Nom.bindP (Nom.mapRes (Nom.terminated Nom.digit1 (Nom.tag ['.'])) parseUsize) fun major =>
  Nom.bindP (Nom.mapRes (Nom.terminated Nom.digit1 (Nom.tag ['.'])) parseUsize) fun minor =>
  Nom.bindP (Nom.mapRes Nom.digit1 parseUsize) fun patch =>
  fun rest => .ok (MajorMinorPatch major minor patch) rest

/-- Embedding of `ChannelVersion::nom_parse`: the two-component form first. -/
def nom_parse : Parser ChannelVersion :=
  Nom.alt nom_parse_major_minor nom_parse_major_minor_patch

/-- Embedding of `Display for ChannelVersion`. -/
def render : ChannelVersion → List Char
  | .MajorMinor major minor => natToChars major ++ '.' :: natToChars minor
  | .MajorMinorPatch major minor patch =>
    natToChars major ++ '.' :: natToChars minor ++ '.' :: natToChars patch

end ChannelVersion

inductive Channel where
  | Stable
  | Beta
  | Nightly
  | Version (version : ChannelVersion)
deriving DecidableEq, Repr

namespace Channel

def STABLE_STR : List Char := "stable".toList

def BETA_STR : List Char := "beta".toList

def NIGHTLY_STR : List Char := "nightly".toList

/-- The `match channel { ... }` dispatch inside `Channel::nom_parse_simple`. -/
def ofTag (s : List Char) : Option Channel :=
  if s == STABLE_STR then some .Stable
  else if s == BETA_STR then some .Beta
  else if s == NIGHTLY_STR then some .Nightly
  else none

/-- Embedding of `Channel::nom_parse_simple`. -/
def nom_parse_simple : Parser Channel := fun input =>
  match Nom.alt (Nom.alt (Nom.tag STABLE_STR) (Nom.tag BETA_STR)) (Nom.tag NIGHTLY_STR) input with
  | .ok s rest =>
    match ofTag s with
    | some c => .ok c rest
    | none => .panic
  | .err => .err
  | .panic => .panic

/-- Embedding of `Channel::nom_parse_version`. -/
def nom_parse_version : Parser Channel :=
  Nom.bindP ChannelVersion.nom_parse fun version =>
  fun rest => .ok (Version version) rest

/-- Embedding of `Channel::nom_parse`. -/
def nom_parse : Parser Channel := Nom.alt nom_parse_simple nom_parse_version

/-- Embedding of `Display for Channel`. -/
def render : Channel → List Char
  | .Stable => STABLE_STR
  | .Beta => BETA_STR
  | .Nightly => NIGHTLY_STR
  | .Version version => version.render

/-- Embedding of `impl FromStr for Channel` (`context` only decorates errors). -/
def from_str (s : List Char) : Res Channel := finishRes (Nom.allConsuming nom_parse s)

end Channel

inductive Vendor where
  | Apple
  | PC
  | Unknown
deriving DecidableEq, Repr

namespace Vendor

def APPLE_STR : List Char := "apple".toList

def PC_STR : List Char := "pc".toList

def UNKNOWN_STR : List Char := "unknown".toList

/-- The `match vendor { ... }` dispatch inside `Vendor::nom_parse`. -/
def ofTag (s : List Char) : Option Vendor :=
  if s == APPLE_STR then some .Apple
  else if s == PC_STR then some .PC
  else if s == UNKNOWN_STR then some .Unknown
  else none

/-- Embedding of `Vendor::nom_parse`. -/
def nom_parse : Parser Vendor := fun input =>
  match Nom.alt (Nom.alt (Nom.tag APPLE_STR) (Nom.tag PC_STR)) (Nom.tag UNKNOWN_STR) input with
  | .ok s rest =>
    match ofTag s with
    | some v => .ok v rest
    | none => .panic
  | .err => .err
  | .panic => .panic

/-- Embedding of `Display for Vendor`. -/
def render : Vendor → List Char
  | .Apple => APPLE_STR
  | .PC => PC_STR
  | .Unknown => UNKNOWN_STR

end Vendor

inductive LinuxAbi where
  | GNU
  | GNUX32
  | MUSL
deriving DecidableEq, Repr

namespace LinuxAbi

def GNU_STR : List Char := "gnu".toList

def GNUX32_STR : List Char := "gnux32".toList

def MUSL_STR : List Char := "musl".toList

/-- The `match linux_abi { ... }` dispatch inside `LinuxAbi::nom_parse`. -/
def ofTag (s : List Char) : Option LinuxAbi :=
  if s == GNU_STR then some .GNU
  else if s == GNUX32_STR then some .GNUX32
  else if s == MUSL_STR then some .MUSL
  else none

/-- Embedding of `LinuxAbi::nom_parse`: the `gnu` alternative carries the
`not(peek(alpha1))` longest-match guard. -/
def nom_parse : Parser LinuxAbi := fun input =>
  match Nom.alt
      (Nom.alt (Nom.terminated (Nom.tag GNU_STR) (Nom.notP (Nom.peek Nom.alpha1)))
        (Nom.tag GNUX32_STR))
      (Nom.tag MUSL_STR) input with
  | .ok s rest =>
    match ofTag s with
    | some a => .ok a rest
    | none => .panic
  | .err => .err
  | .panic => .panic

/-- Embedding of `Display for LinuxAbi`. -/
def render : LinuxAbi → List Char
  | .GNU => GNU_STR
  | .GNUX32 => GNUX32_STR
  | .MUSL => MUSL_STR

end LinuxAbi

inductive WindowsAbi where
  | GNU
  | GNULLVM
  | MSVC
deriving DecidableEq, Repr

namespace WindowsAbi

def GNU_STR : List Char := "gnu".toList

def GNULLVM_STR : List Char := "gnullvm".toList

def MSVC_STR : List Char := "msvc".toList

/-- The `match windows_abi { ... }` dispatch inside `WindowsAbi::nom_parse`. -/
def ofTag (s : List Char) : Option WindowsAbi :=
  if s == GNU_STR then some .GNU
  else if s == GNULLVM_STR then some .GNULLVM
  else if s == MSVC_STR then some .MSVC
  else none

/-- Embedding of `WindowsAbi::nom_parse`: the `gnu` alternative carries the
`not(peek(alpha1))` longest-match guard. -/
def nom_parse : Parser WindowsAbi := fun input =>
  match Nom.alt
      (Nom.alt (Nom.terminated (Nom.tag GNU_STR) (Nom.notP (Nom.peek Nom.alpha1)))
        (Nom.tag GNULLVM_STR))
      (Nom.tag MSVC_STR) input with
  | .ok s rest =>
    match ofTag s with
    | some a => .ok a rest
    | none => .panic
  | .err => .err
  | .panic => .panic

/-- Embedding of `Display for WindowsAbi`. -/
def render : WindowsAbi → List Char
  | .GNU => GNU_STR
  | .GNULLVM => GNULLVM_STR
  | .MSVC => MSVC_STR

end WindowsAbi

inductive System where
  | Darwin
  | Linux (abi : LinuxAbi)
  | Windows (abi : WindowsAbi)
deriving DecidableEq, Repr

namespace System

def DARWIN_STR : List Char := "darwin".toList

def LINUX_STR : List Char := "linux".toList

def WINDOWS_STR : List Char := "windows".toList

/-- Embedding of `System::nom_parse`: match the OS keyword, then for
`linux`/`windows` require a `-<abi>` suffix; the final arm is `unreachable!`. -/
def nom_parse : Parser System := fun input =>
  match Nom.alt (Nom.alt (Nom.tag DARWIN_STR) (Nom.tag LINUX_STR)) (Nom.tag WINDOWS_STR) input with
  | .ok s rest =>
    if s == DARWIN_STR then .ok .Darwin rest
    else if s == LINUX_STR then
      match Nom.preceded (Nom.tag ['-']) LinuxAbi.nom_parse rest with
      | .ok abi rest2 => .ok (.Linux abi) rest2
      | .err => .err
      | .panic => .panic
    else if s == WINDOWS_STR then
      match Nom.preceded (Nom.tag ['-']) WindowsAbi.nom_parse rest with
      | .ok abi rest2 => .ok (.Windows abi) rest2
      | .err => .err
      | .panic => .panic
    else .panic
  | .err => .err
  | .panic => .panic

/-- Embedding of `Display for System`. -/
def render : System → List Char
  | .Darwin => DARWIN_STR
  | .Linux abi => LINUX_STR ++ '-' :: abi.render
  | .Windows abi => WINDOWS_STR ++ '-' :: abi.render

end System

structure Host where
  architecture : Architecture
  vendor : Option Vendor
  system : System
deriving DecidableEq, Repr

namespace Host

/-- Embedding of `Host::nom_parse`: architecture, `opt`ional `-vendor`, then
mandatory `-system`. -/
def nom_parse : Parser Host :=
  Nom.bindP Architecture.nom_parse fun architecture =>
  Nom.bindP (Nom.opt (Nom.preceded (Nom.tag ['-']) Vendor.nom_parse)) fun vendor =>
  Nom.bindP (Nom.preceded (Nom.tag ['-']) System.nom_parse) fun system =>
  fun rest => .ok ⟨architecture, vendor, system⟩ rest

/-- Embedding of `Display for Host`: `"{architecture}{vendor}-{system}"` with the
vendor segment rendered as `"-{vendor}"` when present. -/
def render (h : Host) : List Char :=
  h.architecture.render
    ++ (match h.vendor with
        | some v => '-' :: v.render
        | none => [])
    ++ '-' :: h.system.render

/-- Embedding of `impl FromStr for Host`. -/
def from_str (s : List Char) : Res Host := finishRes (Nom.allConsuming nom_parse s)

end Host

structure Toolchain where
  channel : Channel
  date : Option NDate
  host : Option Host
deriving DecidableEq, Repr

namespace Toolchain

/-- Embedding of `Toolchain::nom_parse_date`:
`map_res(recognize(digit1 "-" digit1 "-" digit1), NaiveDate::parse_from_str)`. -/
def nom_parse_date : Parser NDate :=
  Nom.mapRes
    (Nom.recognize
      (Nom.bindP Nom.digit1 fun _ =>
       Nom.bindP (Nom.tag ['-']) fun _ =>
       Nom.bindP Nom.digit1 fun _ =>
       Nom.bindP (Nom.tag ['-']) fun _ =>
       Nom.digit1))
    chronoParseYmd

/-- Embedding of `Toolchain::nom_parse`: channel, `opt`ional `-date`, `opt`ional
`-host`. -/
def nom_parse : Parser Toolchain :=
  Nom.bindP Channel.nom_parse fun channel =>
  Nom.bindP (Nom.opt (Nom.preceded (Nom.tag ['-']) nom_parse_date)) fun date =>
  Nom.bindP (Nom.opt (Nom.preceded (Nom.tag ['-']) Host.nom_parse)) fun host =>
  fun rest => .ok ⟨channel, date, host⟩ rest

/-- Embedding of `impl FromStr for Toolchain`. -/
def from_str (s : List Char) : Res Toolchain := finishRes (Nom.allConsuming nom_parse s)

end Toolchain

/-- Left-pad with `'0'` to width `w` (chrono's `%04`/`%02` numeric formatting). -/
def padZero (w : Nat) (s : List Char) : List Char := List.replicate (w - s.length) '0' ++ s

/-- Embedding of `Display for NaiveDate` (ISO 8601, `YYYY-MM-DD`, for the
four-digit years this crate's parser can produce). -/
def NDate.render (d : NDate) : List Char :=
  padZero 4 (natToChars d.year) ++ '-' :: padZero 2 (natToChars d.month)
    ++ '-' :: padZero 2 (natToChars d.day)

/-- Embedding of `Display for Toolchain`: `"{channel}{date}{host}"`, where the
optional segments default to the empty string — note the source writes no `-`
separators here. -/
def Toolchain.render (t : Toolchain) : List Char :=
  t.channel.render
    ++ (match t.date with
        | some d => d.render
        | none => [])
    ++ (match t.host with
        | some h => h.render
        | none => [])

inductive Profile where
  | Release
  | Debug
deriving DecidableEq, Repr

namespace Profile

def RELEASE_STR : List Char := "release".toList

def DEBUG_STR : List Char := "debug".toList

/-- The `match profile { ... }` dispatch inside `Profile::nom_parse`. -/
def ofTag (s : List Char) : Option Profile :=
  if s == RELEASE_STR then some .Release
  else if s == DEBUG_STR then some .Debug
  else none

/-- Embedding of `Profile::nom_parse` (src/cargo.rs). -/
def nom_parse : Parser Profile := fun input =>
  match Nom.alt (Nom.tag RELEASE_STR) (Nom.tag DEBUG_STR) input with
  | .ok s rest =>
    match ofTag s with
    | some p => .ok p rest
    | none => .panic
  | .err => .err
  | .panic => .panic

/-- Embedding of `Display for Profile`. -/
def render : Profile → List Char
  | .Release => RELEASE_STR
  | .Debug => DEBUG_STR

/-- Embedding of `impl FromStr for Profile`. -/
def from_str (s : List Char) : Res Profile := finishRes (Nom.allConsuming nom_parse s)

end Profile

/-- Spec-described platform-triple parser (spec §4.5): the `-vendor` attempt and
the following `-system` parse are evaluated as one backtracking unit, committed
only when the system segment succeeds after the vendor; otherwise parsing
backtracks to before the leading hyphen and the system is parsed there. -/
def Host.nom_parse_spec : Parser Host :=
  Nom.bindP Architecture.nom_parse fun architecture =>
  Nom.alt
    (Nom.bindP (Nom.preceded (Nom.tag ['-']) Vendor.nom_parse) fun vendor =>
     Nom.bindP (Nom.preceded (Nom.tag ['-']) System.nom_parse) fun system =>
     fun rest => .ok ⟨architecture, some vendor, system⟩ rest)
    (Nom.bindP (Nom.preceded (Nom.tag ['-']) System.nom_parse) fun system =>
     fun rest => .ok ⟨architecture, none, system⟩ rest)

/-- The ASCII uppercase counterpart of a lowercase letter (identity otherwise). -/
def upperAscii (c : Char) : Char :=
  if 'a' ≤ c ∧ c ≤ 'z' then Char.ofNat (c.toNat - 32) else c

/-- Whether `s` is a character-by-character case variant of the keyword `ks`
(each position holds the keyword's character or its ASCII uppercase form). -/
def caseVariant : List Char → List Char → Bool
  | [], [] => true
  | k :: ks, c :: cs => (c == k || c == upperAscii k) && caseVariant ks cs
  | _, _ => false

/-- Whether every numeric component of a channel fits in a `usize` (always true
for values produced by the Rust code, whose fields are `usize`). -/
def channelBounded : Channel → Bool
  | .Version (.MajorMinor a b) => decide (a < 2 ^ 64) && decide (b < 2 ^ 64)
  | .Version (.MajorMinorPatch a b c) =>
    decide (a < 2 ^ 64) && decide (b < 2 ^ 64) && decide (c < 2 ^ 64)
  | _ => true

/-- Whether three digit strings have the `YYYY`/`MM`/`DD` widths of the spec's
date grammar. -/
def shaped442 (y m d : List Char) : Bool :=
  (y.length == 4) && y.all Char.isDigit && (m.length == 2) && m.all Char.isDigit &&
    (d.length == 2) && d.all Char.isDigit

/-- Whether a year/month/day triple denotes a real calendar date. -/
def validYmd (d : NDate) : Bool :=
  (1 ≤ d.month) && (d.month ≤ 12) && (1 ≤ d.day) && (d.day ≤ daysInMonth d.year d.month)

/-- A parser that can never hit an `unreachable!` arm. -/
def NoPanic {α : Type} (p : Parser α) : Prop := ∀ input, p input ≠ .panic

/-! Helper lemmas about the combinator embedding. -/

/-- Whether the first character of a list satisfies `p` (false on the empty list). -/
def headIs (p : Char → Bool) : List Char → Bool
  | [] => false
  | c :: _ => p c

theorem takeWhile_append_all (p : Char → Bool) (xs ys : List Char) (hx : xs.all p = true)
    (hy : headIs p ys = false) : (xs ++ ys).takeWhile p = xs := by
  induction xs with
  | nil =>
    cases ys with
    | nil => simp
    | cons c cs => simp only [headIs] at hy; simp [List.takeWhile_cons, hy]
  | cons a as ih =>
    simp only [List.all_cons, Bool.and_eq_true] at hx
    simp [List.takeWhile_cons, hx.1, ih hx.2]

theorem dropWhile_append_all (p : Char → Bool) (xs ys : List Char) (hx : xs.all p = true)
    (hy : headIs p ys = false) : (xs ++ ys).dropWhile p = ys := by
  induction xs with
  | nil =>
    cases ys with
    | nil => simp
    | cons c cs => simp only [headIs] at hy; simp [List.dropWhile_cons, hy]
  | cons a as ih =>
    simp only [List.all_cons, Bool.and_eq_true] at hx
    simp [List.dropWhile_cons, hx.1, ih hx.2]

theorem digit1_ok (xs ys : List Char) (hne : xs ≠ []) (hx : xs.all Char.isDigit = true)
    (hy : headIs Char.isDigit ys = false) : Nom.digit1 (xs ++ ys) = .ok xs ys := by
  unfold Nom.digit1
  rw [takeWhile_append_all _ _ _ hx hy, dropWhile_append_all _ _ _ hx hy]
  cases xs with
  | nil => exact absurd rfl hne
  | cons a as => rfl

theorem digit1_err (input : List Char) (h : headIs Char.isDigit input = false) :
    Nom.digit1 input = .err := by
  unfold Nom.digit1
  cases input with
  | nil => rfl
  | cons c cs =>
    simp only [headIs] at h
    simp [List.takeWhile_cons, h]

theorem alpha1_ok_head (c : Char) (cs : List Char) (h : c.isAlpha = true) :
    ∃ v r, Nom.alpha1 (c :: cs) = .ok v r := by
  unfold Nom.alpha1
  simp [List.takeWhile_cons, h]

theorem alpha1_err (input : List Char) (h : headIs Char.isAlpha input = false) :
    Nom.alpha1 input = .err := by
  unfold Nom.alpha1
  cases input with
  | nil => rfl
  | cons c cs =>
    simp only [headIs] at h
    simp [List.takeWhile_cons, h]

theorem tag_append (t rest : List Char) : Nom.tag t (t ++ rest) = .ok t rest := by
  unfold Nom.tag
  rw [if_pos, List.drop_left]
  rw [List.isPrefixOf_iff_prefix]
  exact List.prefix_append t rest

theorem tag_ok_elim {t input s r : List Char} (h : Nom.tag t input = .ok s r) :
    s = t ∧ input = t ++ r := by
  unfold Nom.tag at h
  split at h
  · rename_i hpre
    rw [List.isPrefixOf_iff_prefix] at hpre
    obtain ⟨u, hu⟩ := hpre
    cases h
    subst hu
    rw [List.drop_left]
    exact ⟨rfl, rfl⟩
  · cases h

theorem tag_err_head {a b : Char} {t' rest : List Char} (h : ¬a = b) :
    Nom.tag (a :: t') (b :: rest) = .err := by
  unfold Nom.tag
  rw [if_neg]
  simp only [List.isPrefixOf, Bool.and_eq_true, beq_iff_eq]
  exact fun hc => h hc.1

theorem tag_err_nil (a : Char) (t' : List Char) : Nom.tag (a :: t') [] = .err := by
  unfold Nom.tag
  rfl

theorem tag_err_of_length_ne {t s : List Char} (hlen : s.length = t.length) (hne : s ≠ t) :
    Nom.tag t s = .err := by
  unfold Nom.tag
  rw [if_neg]
  intro hpre
  rw [List.isPrefixOf_iff_prefix] at hpre
  exact hne (hpre.eq_of_length hlen.symm).symm

theorem alt_ok_elim {α : Type} {p q : Parser α} {input : List Char} {s : α} {r : List Char}
    (h : Nom.alt p q input = .ok s r) :
    p input = .ok s r ∨ (p input = .err ∧ q input = .ok s r) := by
  unfold Nom.alt at h
  cases hp : p input with
  | ok a rest => rw [hp] at h; exact Or.inl h
  | err => rw [hp] at h; exact Or.inr ⟨rfl, h⟩
  | panic => rw [hp] at h; cases h

theorem alt_ok_left {α : Type} {p q : Parser α} {input : List Char} {s : α} {r : List Char}
    (h : p input = .ok s r) : Nom.alt p q input = .ok s r := by
  unfold Nom.alt
  rw [h]

theorem alt_of_err {α : Type} {p q : Parser α} {input : List Char} (h : p input = .err) :
    Nom.alt p q input = q input := by
  unfold Nom.alt
  rw [h]

/-! Lemmas about decimal digit strings. -/

theorem char_ofNat_digit_isDigit {k : Nat} (h : k < 10) :
    (Char.ofNat (48 + k)).isDigit = true := by
  interval_cases k <;> decide

theorem char_ofNat_digit_toNat {k : Nat} (h : k < 10) : (Char.ofNat (48 + k)).toNat = 48 + k := by
  interval_cases k <;> decide

theorem natToChars_ne_nil (n : Nat) : natToChars n ≠ [] := by
  unfold natToChars
  split
  · simp
  · simp

theorem natToChars_all_digit (n : Nat) : (natToChars n).all Char.isDigit = true := by
  induction n using Nat.strong_induction_on with
  | _ n ih =>
    unfold natToChars
    split
    · rename_i h
      simp [char_ofNat_digit_isDigit h]
    · rename_i h
      have hd : n / 10 < n := Nat.div_lt_self (by omega) (by omega)
      simp only [List.all_append, Bool.and_eq_true]
      exact ⟨ih _ hd, by simp [char_ofNat_digit_isDigit (Nat.mod_lt n (by omega))]⟩

theorem digitsToNat_append_singleton (xs : List Char) (c : Char) :
    digitsToNat (xs ++ [c]) = 10 * digitsToNat xs + (c.toNat - 48) := by
  unfold digitsToNat
  rw [List.foldl_append]
  simp [Nat.mul_comm]

theorem digitsToNat_natToChars (n : Nat) : digitsToNat (natToChars n) = n := by
  induction n using Nat.strong_induction_on with
  | _ n ih =>
    unfold natToChars
    split
    · rename_i h
      simp [digitsToNat, char_ofNat_digit_toNat h]
    · rename_i h
      have hd : n / 10 < n := Nat.div_lt_self (by omega) (by omega)
      rw [digitsToNat_append_singleton, ih _ hd,
        char_ofNat_digit_toNat (Nat.mod_lt n (by omega))]
      omega

theorem headIs_digit_natToChars (n : Nat) : headIs Char.isDigit (natToChars n) = true := by
  have hall := natToChars_all_digit n
  cases hx : natToChars n with
  | nil => exact absurd hx (natToChars_ne_nil n)
  | cons a as =>
    rw [hx] at hall
    simp only [List.all_cons, Bool.and_eq_true] at hall
    simp [headIs, hall.1]

theorem parseUsize_natToChars {n : Nat} (h : n < 2 ^ 64) :
    parseUsize (natToChars n) = some n := by
  unfold parseUsize
  rw [digitsToNat_natToChars]
  have h1 : (natToChars n).isEmpty = false := by
    cases hx : natToChars n with
    | nil => exact absurd hx (natToChars_ne_nil n)
    | cons a as => rfl
  rw [h1, natToChars_all_digit n]
  simp only [Bool.false_eq_true, if_false, if_true]
  rw [if_pos h]

/-! Panic-freedom: the `unreachable!` arms of the tag-dispatch matches are dead. -/

theorem np_tag (t : List Char) : NoPanic (Nom.tag t) := by
  intro input
  unfold Nom.tag
  split <;> simp

theorem np_digit1 : NoPanic Nom.digit1 := by
  intro input
  unfold Nom.digit1
  by_cases h : (input.takeWhile Char.isDigit).isEmpty = true <;> simp [h]

theorem np_alpha1 : NoPanic Nom.alpha1 := by
  intro input
  unfold Nom.alpha1
  by_cases h : (input.takeWhile Char.isAlpha).isEmpty = true <;> simp [h]

theorem np_pure {α : Type} (a : α) : NoPanic (fun rest => PRes.ok a rest) := by
  intro input
  simp

theorem np_bindP {α β : Type} {p : Parser α} {f : α → Parser β} (hp : NoPanic p)
    (hf : ∀ a, NoPanic (f a)) : NoPanic (Nom.bindP p f) := by
  intro input
  unfold Nom.bindP
  cases hr : p input with
  | ok a rest => exact hf a rest
  | err => simp
  | panic => exact absurd hr (hp input)

theorem np_alt {α : Type} {p q : Parser α} (hp : NoPanic p) (hq : NoPanic q) :
    NoPanic (Nom.alt p q) := by
  intro input
  unfold Nom.alt
  cases hr : p input with
  | ok a rest => simp
  | err => exact hq input
  | panic => exact absurd hr (hp input)

theorem np_opt {α : Type} {p : Parser α} (hp : NoPanic p) : NoPanic (Nom.opt p) := by
  intro input
  unfold Nom.opt
  cases hr : p input with
  | ok a rest => simp
  | err => simp
  | panic => exact absurd hr (hp input)

theorem np_notP {α : Type} {p : Parser α} (hp : NoPanic p) : NoPanic (Nom.notP p) := by
  intro input
  unfold Nom.notP
  cases hr : p input with
  | ok a rest => simp
  | err => simp
  | panic => exact absurd hr (hp input)

theorem np_peek {α : Type} {p : Parser α} (hp : NoPanic p) : NoPanic (Nom.peek p) := by
  intro input
  unfold Nom.peek
  cases hr : p input with
  | ok a rest => simp
  | err => simp
  | panic => exact absurd hr (hp input)

theorem np_preceded {α β : Type} {p : Parser α} {q : Parser β} (hp : NoPanic p)
    (hq : NoPanic q) : NoPanic (Nom.preceded p q) :=
  np_bindP hp fun _ => hq

theorem np_terminated {α β : Type} {p : Parser α} {q : Parser β} (hp : NoPanic p)
    (hq : NoPanic q) : NoPanic (Nom.terminated p q) :=
  np_bindP hp fun a => np_bindP hq fun _ => np_pure a

theorem np_mapRes {α β : Type} {p : Parser α} {f : α → Option β} (hp : NoPanic p) :
    NoPanic (Nom.mapRes p f) := by
  intro input
  unfold Nom.mapRes
  cases hr : p input with
  | ok a rest => cases hf : f a <;> simp [hf]
  | err => simp
  | panic => exact absurd hr (hp input)

theorem np_recognize {α : Type} {p : Parser α} (hp : NoPanic p) : NoPanic (Nom.recognize p) := by
  intro input
  unfold Nom.recognize
  cases hr : p input with
  | ok a rest => simp
  | err => simp
  | panic => exact absurd hr (hp input)

theorem np_allConsuming {α : Type} {p : Parser α} (hp : NoPanic p) :
    NoPanic (Nom.allConsuming p) := by
  intro input
  unfold Nom.allConsuming
  cases hr : p input with
  | ok a rest => cases rest <;> simp
  | err => simp
  | panic => exact absurd hr (hp input)

theorem bindP_ok_elim {α β : Type} {p : Parser α} {f : α → Parser β} {input : List Char} {b : β}
    {r : List Char} (h : Nom.bindP p f input = .ok b r) :
    ∃ a r1, p input = .ok a r1 ∧ f a r1 = .ok b r := by
  unfold Nom.bindP at h
  cases hp : p input with
  | ok a r1 =>
    rw [hp] at h
    exact ⟨a, r1, rfl, h⟩
  | err => rw [hp] at h; simp at h
  | panic => rw [hp] at h; simp at h

theorem terminated_ok_val {α β : Type} {p : Parser α} {q : Parser β} {input r : List Char} {a : α}
    (h : Nom.terminated p q input = .ok a r) : ∃ r1, p input = .ok a r1 := by
  unfold Nom.terminated at h
  obtain ⟨a1, r1, hp, h2⟩ := bindP_ok_elim h
  obtain ⟨b, r2, hq, h3⟩ := bindP_ok_elim h2
  have h4 : PRes.ok a1 r2 = PRes.ok a r := h3
  cases h4
  exact ⟨r1, hp⟩

/-- The tag-dispatch `match` cannot reach its `unreachable!` arm once the
scrutinee is known to be a recognized tag. -/
theorem dispatch_ne_panic {α : Type} {rest : List Char} {o : Option α} (v : α) (ho : o = some v) :
    (match o with
      | some a => PRes.ok a rest
      | none => PRes.panic) ≠ .panic := by
  rw [ho]
  simp

theorem np_architecture : NoPanic Architecture.nom_parse := by
  intro input h
  unfold Architecture.nom_parse at h
  cases halt : Nom.alt (Nom.tag Architecture.I686_STR) (Nom.tag Architecture.X86_64_STR) input with
  | ok s rest =>
    rw [halt] at h
    rcases alt_ok_elim halt with h1 | ⟨-, h1⟩
    · rw [(tag_ok_elim h1).1] at h
      simp [(by decide : Architecture.ofTag Architecture.I686_STR = some Architecture.i686)] at h
    · rw [(tag_ok_elim h1).1] at h
      simp [(by decide : Architecture.ofTag Architecture.X86_64_STR = some Architecture.x86_64)] at h
  | err => rw [halt] at h; cases h
  | panic => exact absurd halt (np_alt (np_tag _) (np_tag _) input)

theorem np_channel_simple : NoPanic Channel.nom_parse_simple := by
  intro input h
  unfold Channel.nom_parse_simple at h
  cases halt : Nom.alt (Nom.alt (Nom.tag Channel.STABLE_STR) (Nom.tag Channel.BETA_STR))
      (Nom.tag Channel.NIGHTLY_STR) input with
  | ok s rest =>
    rw [halt] at h
    rcases alt_ok_elim halt with h1 | ⟨-, h1⟩
    · rcases alt_ok_elim h1 with h2 | ⟨-, h2⟩
      · rw [(tag_ok_elim h2).1] at h
        simp [(by decide : Channel.ofTag Channel.STABLE_STR = some Channel.Stable)] at h
      · rw [(tag_ok_elim h2).1] at h
        simp [(by decide : Channel.ofTag Channel.BETA_STR = some Channel.Beta)] at h
    · rw [(tag_ok_elim h1).1] at h
      simp [(by decide : Channel.ofTag Channel.NIGHTLY_STR = some Channel.Nightly)] at h
  | err => rw [halt] at h; cases h
  | panic => exact absurd halt (np_alt (np_alt (np_tag _) (np_tag _)) (np_tag _) input)

theorem np_channel_version_nom : NoPanic ChannelVersion.nom_parse := by
  unfold ChannelVersion.nom_parse ChannelVersion.nom_parse_major_minor
    ChannelVersion.nom_parse_major_minor_patch
  exact np_alt
    (np_bindP (np_mapRes (np_terminated np_digit1 (np_tag _))) fun _ =>
      np_bindP (np_mapRes np_digit1) fun _ =>
        np_bindP (np_peek (np_notP (np_tag _))) fun _ => np_pure _)
    (np_bindP (np_mapRes (np_terminated np_digit1 (np_tag _))) fun _ =>
      np_bindP (np_mapRes (np_terminated np_digit1 (np_tag _))) fun _ =>
        np_bindP (np_mapRes np_digit1) fun _ => np_pure _)

theorem np_channel : NoPanic Channel.nom_parse := by
  unfold Channel.nom_parse Channel.nom_parse_version
  exact np_alt np_channel_simple
    (np_bindP np_channel_version_nom fun _ => np_pure _)

theorem np_vendor : NoPanic Vendor.nom_parse := by
  intro input h
  unfold Vendor.nom_parse at h
  cases halt : Nom.alt (Nom.alt (Nom.tag Vendor.APPLE_STR) (Nom.tag Vendor.PC_STR))
      (Nom.tag Vendor.UNKNOWN_STR) input with
  | ok s rest =>
    rw [halt] at h
    rcases alt_ok_elim halt with h1 | ⟨-, h1⟩
    · rcases alt_ok_elim h1 with h2 | ⟨-, h2⟩
      · rw [(tag_ok_elim h2).1] at h
        simp [(by decide : Vendor.ofTag Vendor.APPLE_STR = some Vendor.Apple)] at h
      · rw [(tag_ok_elim h2).1] at h
        simp [(by decide : Vendor.ofTag Vendor.PC_STR = some Vendor.PC)] at h
    · rw [(tag_ok_elim h1).1] at h
      simp [(by decide : Vendor.ofTag Vendor.UNKNOWN_STR = some Vendor.Unknown)] at h
  | err => rw [halt] at h; cases h
  | panic => exact absurd halt (np_alt (np_alt (np_tag _) (np_tag _)) (np_tag _) input)

theorem np_linux_abi : NoPanic LinuxAbi.nom_parse := by
  intro input h
  unfold LinuxAbi.nom_parse at h
  cases halt : Nom.alt
      (Nom.alt (Nom.terminated (Nom.tag LinuxAbi.GNU_STR) (Nom.notP (Nom.peek Nom.alpha1)))
        (Nom.tag LinuxAbi.GNUX32_STR))
      (Nom.tag LinuxAbi.MUSL_STR) input with
  | ok s rest =>
    rw [halt] at h
    rcases alt_ok_elim halt with h1 | ⟨-, h1⟩
    · rcases alt_ok_elim h1 with h2 | ⟨-, h2⟩
      · obtain ⟨r1, h3⟩ := terminated_ok_val h2
        rw [(tag_ok_elim h3).1] at h
        simp [(by decide : LinuxAbi.ofTag LinuxAbi.GNU_STR = some LinuxAbi.GNU)] at h
      · rw [(tag_ok_elim h2).1] at h
        simp [(by decide : LinuxAbi.ofTag LinuxAbi.GNUX32_STR = some LinuxAbi.GNUX32)] at h
    · rw [(tag_ok_elim h1).1] at h
      simp [(by decide : LinuxAbi.ofTag LinuxAbi.MUSL_STR = some LinuxAbi.MUSL)] at h
  | err => rw [halt] at h; cases h
  | panic =>
    exact absurd halt (np_alt
      (np_alt (np_terminated (np_tag _) (np_notP (np_peek np_alpha1))) (np_tag _))
      (np_tag _) input)

theorem np_windows_abi : NoPanic WindowsAbi.nom_parse := by
  intro input h
  unfold WindowsAbi.nom_parse at h
  cases halt : Nom.alt
      (Nom.alt (Nom.terminated (Nom.tag WindowsAbi.GNU_STR) (Nom.notP (Nom.peek Nom.alpha1)))
        (Nom.tag WindowsAbi.GNULLVM_STR))
      (Nom.tag WindowsAbi.MSVC_STR) input with
  | ok s rest =>
    rw [halt] at h
    rcases alt_ok_elim halt with h1 | ⟨-, h1⟩
    · rcases alt_ok_elim h1 with h2 | ⟨-, h2⟩
      · obtain ⟨r1, h3⟩ := terminated_ok_val h2
        rw [(tag_ok_elim h3).1] at h
        simp [(by decide : WindowsAbi.ofTag WindowsAbi.GNU_STR = some WindowsAbi.GNU)] at h
      · rw [(tag_ok_elim h2).1] at h
        simp [(by decide : WindowsAbi.ofTag WindowsAbi.GNULLVM_STR = some WindowsAbi.GNULLVM)] at h
    · rw [(tag_ok_elim h1).1] at h
      simp [(by decide : WindowsAbi.ofTag WindowsAbi.MSVC_STR = some WindowsAbi.MSVC)] at h
  | err => rw [halt] at h; cases h
  | panic =>
    exact absurd halt (np_alt
      (np_alt (np_terminated (np_tag _) (np_notP (np_peek np_alpha1))) (np_tag _))
      (np_tag _) input)

theorem np_system : NoPanic System.nom_parse := by
  intro input h
  unfold System.nom_parse at h
  cases halt : Nom.alt (Nom.alt (Nom.tag System.DARWIN_STR) (Nom.tag System.LINUX_STR))
      (Nom.tag System.WINDOWS_STR) input with
  | ok s rest =>
    rw [halt] at h
    have hs : s = System.DARWIN_STR ∨ s = System.LINUX_STR ∨ s = System.WINDOWS_STR := by
      rcases alt_ok_elim halt with h1 | ⟨-, h1⟩
      · rcases alt_ok_elim h1 with h2 | ⟨-, h2⟩
        · exact Or.inl (tag_ok_elim h2).1
        · exact Or.inr (Or.inl (tag_ok_elim h2).1)
      · exact Or.inr (Or.inr (tag_ok_elim h1).1)
    rcases hs with hs | hs | hs <;> subst hs
    · simp at h
    · simp only [(by decide : (System.LINUX_STR == System.DARWIN_STR) = false),
        (by decide : (System.LINUX_STR == System.LINUX_STR) = true),
        Bool.false_eq_true, if_false, if_true] at h
      cases hlin : Nom.preceded (Nom.tag ['-']) LinuxAbi.nom_parse rest with
      | ok abi rest2 => rw [hlin] at h; simp at h
      | err => rw [hlin] at h; simp at h
      | panic => exact absurd hlin (np_preceded (np_tag _) np_linux_abi rest)
    · simp only [(by decide : (System.WINDOWS_STR == System.DARWIN_STR) = false),
        (by decide : (System.WINDOWS_STR == System.LINUX_STR) = false),
        (by decide : (System.WINDOWS_STR == System.WINDOWS_STR) = true),
        Bool.false_eq_true, if_false, if_true] at h
      cases hwin : Nom.preceded (Nom.tag ['-']) WindowsAbi.nom_parse rest with
      | ok abi rest2 => rw [hwin] at h; simp at h
      | err => rw [hwin] at h; simp at h
      | panic => exact absurd hwin (np_preceded (np_tag _) np_windows_abi rest)
  | err => rw [halt] at h; cases h
  | panic => exact absurd halt (np_alt (np_alt (np_tag _) (np_tag _)) (np_tag _) input)

theorem np_host : NoPanic Host.nom_parse := by
  unfold Host.nom_parse
  exact np_bindP np_architecture fun _ =>
    np_bindP (np_opt (np_preceded (np_tag _) np_vendor)) fun _ =>
      np_bindP (np_preceded (np_tag _) np_system) fun _ => np_pure _

theorem np_date : NoPanic Toolchain.nom_parse_date := by
  unfold Toolchain.nom_parse_date
  exact np_mapRes (np_recognize
    (np_bindP np_digit1 fun _ =>
      np_bindP (np_tag _) fun _ =>
        np_bindP np_digit1 fun _ =>
          np_bindP (np_tag _) fun _ => np_digit1))

theorem np_toolchain : NoPanic Toolchain.nom_parse := by
  unfold Toolchain.nom_parse
  exact np_bindP np_channel fun _ =>
    np_bindP (np_opt (np_preceded (np_tag _) np_date)) fun _ =>
      np_bindP (np_opt (np_preceded (np_tag _) np_host)) fun _ => np_pure _

theorem np_profile : NoPanic Profile.nom_parse := by
  intro input h
  unfold Profile.nom_parse at h
  cases halt : Nom.alt (Nom.tag Profile.RELEASE_STR) (Nom.tag Profile.DEBUG_STR) input with
  | ok s rest =>
    rw [halt] at h
    rcases alt_ok_elim halt with h1 | ⟨-, h1⟩
    · rw [(tag_ok_elim h1).1] at h
      simp [(by decide : Profile.ofTag Profile.RELEASE_STR = some Profile.Release)] at h
    · rw [(tag_ok_elim h1).1] at h
      simp [(by decide : Profile.ofTag Profile.DEBUG_STR = some Profile.Debug)] at h
  | err => rw [halt] at h; cases h
  | panic => exact absurd halt (np_alt (np_tag _) (np_tag _) input)

theorem finishRes_ne_panic {α : Type} {p : Parser α} (hp : NoPanic p) (s : List Char) :
    finishRes (Nom.allConsuming p s) ≠ .panic := by
  intro h
  unfold finishRes at h
  cases hr : Nom.allConsuming p s with
  | ok a rest => rw [hr] at h; cases h
  | err => rw [hr] at h; cases h
  | panic => exact absurd hr (np_allConsuming hp s)

/-- C9: every public parse entry point (`Profile`, `Channel`, `Host`, `Toolchain`
`from_str`) is total over arbitrary input strings, including the empty one: it
returns a value or a structured error and never reaches the `unreachable!`
fallback arms of the tag-dispatch matches. -/
theorem c9_from_str_never_panics : ∀ s : List Char,
    Profile.from_str s ≠ .panic ∧ Channel.from_str s ≠ .panic ∧
      Host.from_str s ≠ .panic ∧ Toolchain.from_str s ≠ .panic := by
  intro s
  exact ⟨finishRes_ne_panic np_profile s, finishRes_ne_panic np_channel s,
    finishRes_ne_panic np_host s, finishRes_ne_panic np_toolchain s⟩

/-! Forward evaluation equations for the combinators. -/

theorem bindP_eq_of_ok {α β : Type} {p : Parser α} {f : α → Parser β} {input : List Char} {a : α}
    {r1 : List Char} (hp : p input = .ok a r1) : Nom.bindP p f input = f a r1 := by
  simp only [Nom.bindP, hp]

theorem bindP_eq_of_err {α β : Type} {p : Parser α} {f : α → Parser β} {input : List Char}
    (hp : p input = .err) : Nom.bindP p f input = .err := by
  simp only [Nom.bindP, hp]

theorem notP_eq_of_err {α : Type} {p : Parser α} {input : List Char} (hp : p input = .err) :
    Nom.notP p input = .ok () input := by
  simp only [Nom.notP, hp]

theorem notP_eq_of_ok {α : Type} {p : Parser α} {input : List Char} {a : α} {r : List Char}
    (hp : p input = .ok a r) : Nom.notP p input = .err := by
  simp only [Nom.notP, hp]

theorem peek_eq_of_err {α : Type} {p : Parser α} {input : List Char} (hp : p input = .err) :
    Nom.peek p input = .err := by
  simp only [Nom.peek, hp]

theorem peek_eq_of_ok {α : Type} {p : Parser α} {input : List Char} {a : α} {r : List Char}
    (hp : p input = .ok a r) : Nom.peek p input = .ok a input := by
  simp only [Nom.peek, hp]

theorem opt_eq_of_ok {α : Type} {p : Parser α} {input : List Char} {a : α} {r : List Char}
    (hp : p input = .ok a r) : Nom.opt p input = .ok (some a) r := by
  simp only [Nom.opt, hp]

theorem opt_eq_of_err {α : Type} {p : Parser α} {input : List Char} (hp : p input = .err) :
    Nom.opt p input = .ok none input := by
  simp only [Nom.opt, hp]

theorem mapRes_eq_some {α β : Type} {p : Parser α} {f : α → Option β} {input : List Char} {a : α}
    {r : List Char} {b : β} (hp : p input = .ok a r) (hf : f a = some b) :
    Nom.mapRes p f input = .ok b r := by
  simp only [Nom.mapRes, hp, hf]

theorem mapRes_eq_none {α β : Type} {p : Parser α} {f : α → Option β} {input : List Char} {a : α}
    {r : List Char} (hp : p input = .ok a r) (hf : f a = none) : Nom.mapRes p f input = .err := by
  simp only [Nom.mapRes, hp, hf]

theorem mapRes_eq_of_err {α β : Type} {p : Parser α} {f : α → Option β} {input : List Char}
    (hp : p input = .err) : Nom.mapRes p f input = .err := by
  simp only [Nom.mapRes, hp]

theorem recognize_eq_of_ok {α : Type} {p : Parser α} {input : List Char} {a : α} {rest : List Char}
    (hp : p input = .ok a rest) :
    Nom.recognize p input = .ok (input.take (input.length - rest.length)) rest := by
  simp only [Nom.recognize, hp]

theorem allConsuming_eq_of_ok_cons {α : Type} {p : Parser α} {input : List Char} {a : α} {c : Char}
    {cs : List Char} (hp : p input = .ok a (c :: cs)) : Nom.allConsuming p input = .err := by
  simp only [Nom.allConsuming, hp]

theorem allConsuming_eq_of_err {α : Type} {p : Parser α} {input : List Char}
    (hp : p input = .err) : Nom.allConsuming p input = .err := by
  simp only [Nom.allConsuming, hp]

theorem peek_ok_elim {α : Type} {p : Parser α} {input : List Char} {a : α} {r : List Char}
    (h : Nom.peek p input = .ok a r) : r = input ∧ ∃ r', p input = .ok a r' := by
  unfold Nom.peek at h
  cases hp : p input with
  | ok a1 r1 =>
    rw [hp] at h
    have h2 : PRes.ok a1 input = PRes.ok a r := h
    cases h2
    exact ⟨rfl, r1, rfl⟩
  | err => rw [hp] at h; simp at h
  | panic => rw [hp] at h; simp at h

theorem notP_ok_elim {α : Type} {p : Parser α} {input : List Char} {u : Unit} {r : List Char}
    (h : Nom.notP p input = .ok u r) : p input = .err ∧ r = input := by
  unfold Nom.notP at h
  cases hp : p input with
  | ok a1 r1 => rw [hp] at h; simp at h
  | err =>
    rw [hp] at h
    have h2 : PRes.ok () input = PRes.ok u r := h
    cases h2
    exact ⟨rfl, rfl⟩
  | panic => rw [hp] at h; simp at h

theorem tag_dot_err_head {rest : List Char} (h : Nom.tag ['.'] rest = .err) :
    rest.head? ≠ some '.' := by
  cases rest with
  | nil => simp
  | cons c cs =>
    intro hc
    simp only [List.head?_cons, Option.some.injEq] at hc
    subst hc
    rw [show ('.' :: cs : List Char) = ['.'] ++ cs from rfl] at h
    rw [tag_append] at h
    cases h

/-! C2: longest-match guard on the ABI tags. -/

theorem headIs_cons (p : Char → Bool) (c : Char) (l : List Char) : headIs p (c :: l) = p c := rfl

theorem terminated_guard_ok (t rest : List Char) (h : headIs Char.isAlpha rest = false) :
    Nom.terminated (Nom.tag t) (Nom.notP (Nom.peek Nom.alpha1)) (t ++ rest) = .ok t rest := by
  unfold Nom.terminated
  rw [bindP_eq_of_ok (tag_append t rest),
    bindP_eq_of_ok (notP_eq_of_err (peek_eq_of_err (alpha1_err rest h)))]

theorem terminated_guard_err (t : List Char) {rest : List Char}
    (h : headIs Char.isAlpha rest = true) :
    Nom.terminated (Nom.tag t) (Nom.notP (Nom.peek Nom.alpha1)) (t ++ rest) = .err := by
  cases rest with
  | nil => simp [headIs] at h
  | cons c cs =>
    simp only [headIs] at h
    obtain ⟨v, r, hv⟩ := alpha1_ok_head c cs h
    unfold Nom.terminated
    rw [bindP_eq_of_ok (tag_append t (c :: cs)),
      bindP_eq_of_err (notP_eq_of_ok (peek_eq_of_ok hv))]

/-- C2: a short ABI tag that is a strict prefix of a longer valid tag in the same
family is accepted only when the character following it is not alphabetic; an
input starting with `gnullvm` parses as the Windows GNULLVM variant and one
starting with `gnux32` as the Linux GNUX32 variant, never as GNU with letters
left over. -/
theorem c2_abi_prefix_guard :
    (∀ rest : List Char, headIs Char.isAlpha rest = false →
        LinuxAbi.nom_parse (LinuxAbi.GNU_STR ++ rest) = .ok .GNU rest ∧
        WindowsAbi.nom_parse (WindowsAbi.GNU_STR ++ rest) = .ok .GNU rest) ∧
    (∀ rest : List Char, headIs Char.isAlpha rest = true →
        (∀ r' : List Char, LinuxAbi.nom_parse (LinuxAbi.GNU_STR ++ rest) ≠ .ok .GNU r') ∧
        (∀ r' : List Char, WindowsAbi.nom_parse (WindowsAbi.GNU_STR ++ rest) ≠ .ok .GNU r')) ∧
    (∀ rest : List Char, LinuxAbi.nom_parse (LinuxAbi.GNUX32_STR ++ rest) = .ok .GNUX32 rest) ∧
    (∀ rest : List Char, WindowsAbi.nom_parse (WindowsAbi.GNULLVM_STR ++ rest) = .ok .GNULLVM rest) := by
  refine ⟨fun rest h => ⟨?_, ?_⟩, fun rest h => ⟨?_, ?_⟩, fun rest => ?_, fun rest => ?_⟩
  · unfold LinuxAbi.nom_parse
    rw [alt_ok_left (alt_ok_left (terminated_guard_ok LinuxAbi.GNU_STR rest h))]
    simp [(by decide : LinuxAbi.ofTag LinuxAbi.GNU_STR = some LinuxAbi.GNU)]
  · unfold WindowsAbi.nom_parse
    rw [alt_ok_left (alt_ok_left (terminated_guard_ok WindowsAbi.GNU_STR rest h))]
    simp [(by decide : WindowsAbi.ofTag WindowsAbi.GNU_STR = some WindowsAbi.GNU)]
  · intro r' hcontra
    unfold LinuxAbi.nom_parse at hcontra
    cases halt : Nom.alt
        (Nom.alt (Nom.terminated (Nom.tag LinuxAbi.GNU_STR) (Nom.notP (Nom.peek Nom.alpha1)))
          (Nom.tag LinuxAbi.GNUX32_STR))
        (Nom.tag LinuxAbi.MUSL_STR) (LinuxAbi.GNU_STR ++ rest) with
    | ok s r =>
      rw [halt] at hcontra
      rcases alt_ok_elim halt with h1 | ⟨-, h1⟩
      · rcases alt_ok_elim h1 with h2 | ⟨-, h2⟩
        · rw [terminated_guard_err LinuxAbi.GNU_STR h] at h2; cases h2
        · rw [(tag_ok_elim h2).1] at hcontra
          simp [(by decide : LinuxAbi.ofTag LinuxAbi.GNUX32_STR = some LinuxAbi.GNUX32)] at hcontra
      · rw [(tag_ok_elim h1).1] at hcontra
        simp [(by decide : LinuxAbi.ofTag LinuxAbi.MUSL_STR = some LinuxAbi.MUSL)] at hcontra
    | err => rw [halt] at hcontra; cases hcontra
    | panic => rw [halt] at hcontra; cases hcontra
  · intro r' hcontra
    unfold WindowsAbi.nom_parse at hcontra
    cases halt : Nom.alt
        (Nom.alt (Nom.terminated (Nom.tag WindowsAbi.GNU_STR) (Nom.notP (Nom.peek Nom.alpha1)))
          (Nom.tag WindowsAbi.GNULLVM_STR))
        (Nom.tag WindowsAbi.MSVC_STR) (WindowsAbi.GNU_STR ++ rest) with
    | ok s r =>
      rw [halt] at hcontra
      rcases alt_ok_elim halt with h1 | ⟨-, h1⟩
      · rcases alt_ok_elim h1 with h2 | ⟨-, h2⟩
        · rw [terminated_guard_err WindowsAbi.GNU_STR h] at h2; cases h2
        · rw [(tag_ok_elim h2).1] at hcontra
          simp [(by decide :
            WindowsAbi.ofTag WindowsAbi.GNULLVM_STR = some WindowsAbi.GNULLVM)] at hcontra
      · rw [(tag_ok_elim h1).1] at hcontra
        simp [(by decide : WindowsAbi.ofTag WindowsAbi.MSVC_STR = some WindowsAbi.MSVC)] at hcontra
    | err => rw [halt] at hcontra; cases hcontra
    | panic => rw [halt] at hcontra; cases hcontra
  · have hguard : Nom.terminated (Nom.tag LinuxAbi.GNU_STR) (Nom.notP (Nom.peek Nom.alpha1))
        (LinuxAbi.GNUX32_STR ++ rest) = .err := by
      have hsplit : LinuxAbi.GNUX32_STR ++ rest
          = LinuxAbi.GNU_STR ++ ('x' :: '3' :: '2' :: rest) := rfl
      rw [hsplit]
      exact terminated_guard_err LinuxAbi.GNU_STR
        (by rw [headIs_cons]; decide)
    unfold LinuxAbi.nom_parse
    rw [alt_ok_left ((alt_of_err hguard).trans (tag_append LinuxAbi.GNUX32_STR rest))]
    simp [(by decide : LinuxAbi.ofTag LinuxAbi.GNUX32_STR = some LinuxAbi.GNUX32)]
  · have hguard : Nom.terminated (Nom.tag WindowsAbi.GNU_STR) (Nom.notP (Nom.peek Nom.alpha1))
        (WindowsAbi.GNULLVM_STR ++ rest) = .err := by
      have hsplit : WindowsAbi.GNULLVM_STR ++ rest
          = WindowsAbi.GNU_STR ++ ('l' :: 'l' :: 'v' :: 'm' :: rest) := rfl
      rw [hsplit]
      exact terminated_guard_err WindowsAbi.GNU_STR
        (by rw [headIs_cons]; decide)
    unfold WindowsAbi.nom_parse
    rw [alt_ok_left ((alt_of_err hguard).trans (tag_append WindowsAbi.GNULLVM_STR rest))]
    simp [(by decide : WindowsAbi.ofTag WindowsAbi.GNULLVM_STR = some WindowsAbi.GNULLVM)]

theorem c2_abi_prefix_guard_witness :
    LinuxAbi.nom_parse (LinuxAbi.GNU_STR ++ ['-']) = .ok .GNU ['-'] ∧
    WindowsAbi.nom_parse (WindowsAbi.GNU_STR ++ "llvm".toList) ≠ .ok .GNU [] ∧
    LinuxAbi.nom_parse (LinuxAbi.GNUX32_STR ++ []) = .ok .GNUX32 [] ∧
    WindowsAbi.nom_parse (WindowsAbi.GNULLVM_STR ++ []) = .ok .GNULLVM [] :=
  ⟨(c2_abi_prefix_guard.1 ['-'] (by decide)).1,
   (c2_abi_prefix_guard.2.1 "llvm".toList (by decide)).2 [],
   c2_abi_prefix_guard.2.2.1 [],
   c2_abi_prefix_guard.2.2.2 []⟩

/-! C3: two-component versus three-component version disambiguation. -/

theorem mmp_shape {input : List Char} {v : ChannelVersion} {rest : List Char}
    (h : ChannelVersion.nom_parse_major_minor_patch input = .ok v rest) :
    ∃ a b c, v = .MajorMinorPatch a b c := by
  unfold ChannelVersion.nom_parse_major_minor_patch at h
  obtain ⟨a, r1, -, h2⟩ := bindP_ok_elim h
  obtain ⟨b, r2, -, h3⟩ := bindP_ok_elim h2
  obtain ⟨c, r3, -, h4⟩ := bindP_ok_elim h3
  have h5 : PRes.ok (ChannelVersion.MajorMinorPatch a b c) r3 = PRes.ok v rest := h4
  cases h5
  exact ⟨a, b, c, rfl⟩

theorem mm_rest_no_dot {input : List Char} {v : ChannelVersion} {rest : List Char}
    (h : ChannelVersion.nom_parse_major_minor input = .ok v rest) : rest.head? ≠ some '.' := by
  unfold ChannelVersion.nom_parse_major_minor at h
  obtain ⟨a, r1, -, h2⟩ := bindP_ok_elim h
  obtain ⟨b, r2, -, h3⟩ := bindP_ok_elim h2
  obtain ⟨u, r3, hpeek, h4⟩ := bindP_ok_elim h3
  have h5 : PRes.ok (ChannelVersion.MajorMinor a b) r3 = PRes.ok v rest := h4
  cases h5
  obtain ⟨hr, r', hnp⟩ := peek_ok_elim hpeek
  subst hr
  obtain ⟨htag, -⟩ := notP_ok_elim hnp
  exact tag_dot_err_head htag

/-- C3: the version parser tries the two-component form first but rejects it when
the character after `<digits>.<digits>` is a dot: `"1.3"` parses as
`MajorMinor(1,3)`, `"1.52.1"` parses as `MajorMinorPatch(1,52,1)`, and every
parsed `MajorMinor` leaves a remainder that does not begin with `'.'`. -/
theorem c3_version_disambiguation :
    ChannelVersion.nom_parse ("1.3".toList) = .ok (.MajorMinor 1 3) [] ∧
    ChannelVersion.nom_parse ("1.52.1".toList) = .ok (.MajorMinorPatch 1 52 1) [] ∧
    ∀ (input : List Char) (a b : Nat) (rest : List Char),
      ChannelVersion.nom_parse input = .ok (.MajorMinor a b) rest → rest.head? ≠ some '.' := by
  refine ⟨by decide, by decide, fun input a b rest h => ?_⟩
  unfold ChannelVersion.nom_parse at h
  rcases alt_ok_elim h with h1 | ⟨-, h1⟩
  · exact mm_rest_no_dot h1
  · obtain ⟨x, y, z, hv⟩ := mmp_shape h1
    cases hv

theorem c3_version_disambiguation_witness : (("-x".toList : List Char)).head? ≠ some '.' :=
  c3_version_disambiguation.2.2 ("1.3-x".toList) 1 3 ("-x".toList) (by decide)

theorem from_str_err_of_rest {α : Type} {p : Parser α} {s : List Char} {a : α} {c : Char}
    {cs : List Char} (h : p s = .ok a (c :: cs)) :
    finishRes (Nom.allConsuming p s) = .err := by
  rw [allConsuming_eq_of_ok_cons h]
  rfl

/-- C4: every top-level parse entry point (`Profile`, `Channel`, `Host`,
`Toolchain` `from_str`) fails whenever any input remains unconsumed after its
component rules succeed; in particular `"1.3."`, `"1.52."`, `"1.52.1."` all
fail, and `"1.3.4.5"` fails precisely because the version sub-parser succeeds
with `MajorMinorPatch(1,3,4)` and `".5"` left over, which the `all_consuming`
wrapper then rejects. -/
theorem c4_trailing_rejection :
    (∀ (s : List Char) (v : Profile) (c : Char) (cs : List Char),
      Profile.nom_parse s = .ok v (c :: cs) → Profile.from_str s = .err) ∧
    (∀ (s : List Char) (v : Channel) (c : Char) (cs : List Char),
      Channel.nom_parse s = .ok v (c :: cs) → Channel.from_str s = .err) ∧
    (∀ (s : List Char) (v : Host) (c : Char) (cs : List Char),
      Host.nom_parse s = .ok v (c :: cs) → Host.from_str s = .err) ∧
    (∀ (s : List Char) (v : Toolchain) (c : Char) (cs : List Char),
      Toolchain.nom_parse s = .ok v (c :: cs) → Toolchain.from_str s = .err) ∧
    Channel.from_str ("1.3.".toList) = .err ∧
    Channel.from_str ("1.52.".toList) = .err ∧
    Channel.from_str ("1.52.1.".toList) = .err ∧
    ChannelVersion.nom_parse ("1.3.4.5".toList) = .ok (.MajorMinorPatch 1 3 4) (".5".toList) ∧
    Channel.from_str ("1.3.4.5".toList) = .err := by
  refine ⟨fun s v c cs h => ?_, fun s v c cs h => ?_, fun s v c cs h => ?_,
    fun s v c cs h => ?_, by decide, by decide, by decide, by decide, by decide⟩ <;>
    exact from_str_err_of_rest h

theorem c4_trailing_rejection_witness :
    Profile.from_str ("releasex".toList) = .err ∧
    Channel.from_str ("1.3.4.5".toList) = .err ∧
    Host.from_str ("i686-darwinx".toList) = .err ∧
    Toolchain.from_str ("stablex".toList) = .err :=
  ⟨c4_trailing_rejection.1 ("releasex".toList) .Release 'x' [] (by decide),
   c4_trailing_rejection.2.1 ("1.3.4.5".toList) (.Version (.MajorMinorPatch 1 3 4)) '.'
     ("5".toList) (by decide),
   c4_trailing_rejection.2.2.1 ("i686-darwinx".toList) ⟨.i686, none, .Darwin⟩ 'x' [] (by decide),
   c4_trailing_rejection.2.2.2.1 ("stablex".toList) ⟨.Stable, none, none⟩ 'x' [] (by decide)⟩

/-! C6: optional-vendor backtracking in the platform-triple parser. -/

theorem bindP_eq_of_panic {α β : Type} {p : Parser α} {f : α → Parser β} {input : List Char}
    (hp : p input = .panic) : Nom.bindP p f input = .panic := by
  simp only [Nom.bindP, hp]

theorem opt_eq_of_panic {α : Type} {p : Parser α} {input : List Char} (hp : p input = .panic) :
    Nom.opt p input = .panic := by
  simp only [Nom.opt, hp]

theorem alt_eq_of_panic {α : Type} {p q : Parser α} {input : List Char} (hp : p input = .panic) :
    Nom.alt p q input = .panic := by
  simp only [Nom.alt, hp]

theorem preceded_tag_ok_elim {α : Type} {t input : List Char} {q : Parser α} {a : α}
    {r : List Char} (h : Nom.preceded (Nom.tag t) q input = .ok a r) :
    ∃ r1, input = t ++ r1 ∧ q r1 = .ok a r := by
  unfold Nom.preceded at h
  obtain ⟨s, r1, htag, hq⟩ := bindP_ok_elim h
  obtain ⟨-, hi⟩ := tag_ok_elim htag
  exact ⟨r1, hi, hq⟩

theorem tag_err_of_head_ne {t input : List Char} {a b : Char} (ht : t.head? = some a)
    (hi : input.head? = some b) (hne : a ≠ b) : Nom.tag t input = .err := by
  cases t with
  | nil => simp at ht
  | cons x xs =>
    cases input with
    | nil => simp at hi
    | cons y ys =>
      simp only [List.head?_cons, Option.some.injEq] at ht hi
      subst ht
      subst hi
      exact tag_err_head hne

theorem vendor_ok_head {l : List Char} {v : Vendor} {r : List Char}
    (h : Vendor.nom_parse l = .ok v r) :
    ∃ c cs, l = c :: cs ∧ (c = 'a' ∨ c = 'p' ∨ c = 'u') := by
  unfold Vendor.nom_parse at h
  cases halt : Nom.alt (Nom.alt (Nom.tag Vendor.APPLE_STR) (Nom.tag Vendor.PC_STR))
      (Nom.tag Vendor.UNKNOWN_STR) l with
  | ok s rest =>
    rcases alt_ok_elim halt with h1 | ⟨-, h1⟩
    · rcases alt_ok_elim h1 with h2 | ⟨-, h2⟩
      · obtain ⟨-, hl⟩ := tag_ok_elim h2
        exact ⟨'a', "pple".toList ++ rest, by rw [hl]; rfl, Or.inl rfl⟩
      · obtain ⟨-, hl⟩ := tag_ok_elim h2
        exact ⟨'p', 'c' :: rest, by rw [hl]; rfl, Or.inr (Or.inl rfl)⟩
    · obtain ⟨-, hl⟩ := tag_ok_elim h1
      exact ⟨'u', "nknown".toList ++ rest, by rw [hl]; rfl, Or.inr (Or.inr rfl)⟩
  | err => rw [halt] at h; simp at h
  | panic => rw [halt] at h; simp at h

theorem system_err_of_head {c : Char} (cs : List Char) (h1 : ('d' : Char) ≠ c)
    (h2 : ('l' : Char) ≠ c) (h3 : ('w' : Char) ≠ c) : System.nom_parse (c :: cs) = .err := by
  have hd : Nom.tag System.DARWIN_STR (c :: cs) = .err := tag_err_of_head_ne rfl rfl h1
  have hl : Nom.tag System.LINUX_STR (c :: cs) = .err := tag_err_of_head_ne rfl rfl h2
  have hw : Nom.tag System.WINDOWS_STR (c :: cs) = .err := tag_err_of_head_ne rfl rfl h3
  have hA : Nom.alt (Nom.alt (Nom.tag System.DARWIN_STR) (Nom.tag System.LINUX_STR))
      (Nom.tag System.WINDOWS_STR) (c :: cs) = .err :=
    (alt_of_err ((alt_of_err hd).trans hl)).trans hw
  unfold System.nom_parse
  rw [hA]

theorem vendor_ok_system_err {l : List Char} {v : Vendor} {r : List Char}
    (h : Vendor.nom_parse l = .ok v r) : System.nom_parse l = .err := by
  obtain ⟨c, cs, hl, hc⟩ := vendor_ok_head h
  subst hl
  rcases hc with rfl | rfl | rfl <;>
    exact system_err_of_head cs (by decide) (by decide) (by decide)

theorem arch_parse_render (a : Architecture) (rest : List Char) :
    Architecture.nom_parse (a.render ++ rest) = .ok a rest := by
  cases a with
  | i686 =>
    unfold Architecture.nom_parse Architecture.render
    rw [alt_ok_left (tag_append Architecture.I686_STR rest)]
    simp [(by decide : Architecture.ofTag Architecture.I686_STR = some Architecture.i686)]
  | x86_64 =>
    unfold Architecture.nom_parse Architecture.render
    have hi : Nom.tag Architecture.I686_STR (Architecture.X86_64_STR ++ rest) = .err :=
      tag_err_of_head_ne rfl rfl (by decide)
    rw [(alt_of_err hi).trans (tag_append Architecture.X86_64_STR rest)]
    simp [(by decide : Architecture.ofTag Architecture.X86_64_STR = some Architecture.x86_64)]

theorem host_code_eq_spec (input : List Char) : Host.nom_parse input = Host.nom_parse_spec input := by
  unfold Host.nom_parse Host.nom_parse_spec
  cases harch : Architecture.nom_parse input with
  | err => rw [bindP_eq_of_err harch, bindP_eq_of_err harch]
  | panic => rw [bindP_eq_of_panic harch, bindP_eq_of_panic harch]
  | ok arch rest =>
    rw [bindP_eq_of_ok harch, bindP_eq_of_ok harch]
    cases hv : Nom.preceded (Nom.tag ['-']) Vendor.nom_parse rest with
    | err =>
      rw [bindP_eq_of_ok (opt_eq_of_err hv), alt_of_err (bindP_eq_of_err hv)]
    | panic =>
      rw [bindP_eq_of_panic (opt_eq_of_panic hv), alt_eq_of_panic (bindP_eq_of_panic hv)]
    | ok v rest2 =>
      rw [bindP_eq_of_ok (opt_eq_of_ok hv)]
      cases hsys : Nom.preceded (Nom.tag ['-']) System.nom_parse rest2 with
      | ok sys rest3 =>
        rw [bindP_eq_of_ok hsys]
        have hu1 : Nom.bindP (Nom.preceded (Nom.tag ['-']) Vendor.nom_parse)
            (fun vendor => Nom.bindP (Nom.preceded (Nom.tag ['-']) System.nom_parse)
              (fun system => fun r => PRes.ok (Host.mk arch (some vendor) system) r)) rest
            = PRes.ok (Host.mk arch (some v) sys) rest3 := by
          rw [bindP_eq_of_ok hv, bindP_eq_of_ok hsys]
        rw [alt_ok_left hu1]
      | err =>
        rw [bindP_eq_of_err hsys]
        have hu1 : Nom.bindP (Nom.preceded (Nom.tag ['-']) Vendor.nom_parse)
            (fun vendor => Nom.bindP (Nom.preceded (Nom.tag ['-']) System.nom_parse)
              (fun system => fun r => PRes.ok (Host.mk arch (some vendor) system) r)) rest
            = .err := by
          rw [bindP_eq_of_ok hv, bindP_eq_of_err hsys]
        rw [alt_of_err hu1]
        obtain ⟨rest1, hrest, hvend⟩ := preceded_tag_ok_elim hv
        subst hrest
        have hS : Nom.preceded (Nom.tag ['-']) System.nom_parse (['-'] ++ rest1)
            = System.nom_parse rest1 := by
          unfold Nom.preceded
          rw [bindP_eq_of_ok (tag_append ['-'] rest1)]
        rw [bindP_eq_of_err (hS.trans (vendor_ok_system_err hvend))]
      | panic =>
        rw [bindP_eq_of_panic hsys]
        have hu1 : Nom.bindP (Nom.preceded (Nom.tag ['-']) Vendor.nom_parse)
            (fun vendor => Nom.bindP (Nom.preceded (Nom.tag ['-']) System.nom_parse)
              (fun system => fun r => PRes.ok (Host.mk arch (some vendor) system) r)) rest
            = .panic := by
          rw [bindP_eq_of_ok hv, bindP_eq_of_panic hsys]
        rw [alt_eq_of_panic hu1]

/-- C6: the vendor segment of the platform triple is genuinely optional and
speculative: the code's parser coincides on every input with the spec's
parser in which the `-vendor` attempt is committed only when the following
`-system` segment also succeeds (backtracking before the leading hyphen
otherwise), and a triple that omits the vendor parses with `vendor = none`. -/
theorem c6_vendor_optionality :
    (∀ input : List Char, Host.nom_parse input = Host.nom_parse_spec input) ∧
    (∀ (arch : Architecture) (rest : List Char) (sys : System) (r' : List Char),
      Vendor.nom_parse rest = .err → System.nom_parse rest = .ok sys r' →
      Host.nom_parse (arch.render ++ '-' :: rest) = .ok ⟨arch, none, sys⟩ r') := by
  refine ⟨host_code_eq_spec, fun arch rest sys r' hv hs => ?_⟩
  unfold Host.nom_parse
  have harch : Architecture.nom_parse (arch.render ++ '-' :: rest) = .ok arch ('-' :: rest) :=
    arch_parse_render arch ('-' :: rest)
  rw [bindP_eq_of_ok harch]
  have ht : Nom.tag ['-'] ('-' :: rest) = .ok ['-'] rest := tag_append ['-'] rest
  have hV : Nom.preceded (Nom.tag ['-']) Vendor.nom_parse ('-' :: rest) = .err := by
    unfold Nom.preceded
    rw [bindP_eq_of_ok ht]
    exact hv
  rw [bindP_eq_of_ok (opt_eq_of_err hV)]
  have hS : Nom.preceded (Nom.tag ['-']) System.nom_parse ('-' :: rest) = .ok sys r' := by
    unfold Nom.preceded
    rw [bindP_eq_of_ok ht]
    exact hs
  rw [bindP_eq_of_ok hS]

theorem c6_vendor_optionality_witness :
    Host.nom_parse ((Architecture.i686).render ++ '-' :: "darwin".toList)
      = .ok ⟨.i686, none, .Darwin⟩ [] :=
  c6_vendor_optionality.2 .i686 ("darwin".toList) .Darwin [] (by decide) (by decide)

/-! C7: calendar-date validation of the optional toolchain date segment. -/

theorem mapRes_ok_elim {α β : Type} {p : Parser α} {f : α → Option β} {input : List Char} {b : β}
    {r : List Char} (h : Nom.mapRes p f input = .ok b r) : ∃ a, f a = some b := by
  unfold Nom.mapRes at h
  cases hp : p input with
  | ok a r1 =>
    rw [hp] at h
    have h' : (match f a with
        | some b2 => PRes.ok b2 r1
        | none => PRes.err) = PRes.ok b r := h
    cases hf : f a with
    | some b1 =>
      rw [hf] at h'
      have h2 : PRes.ok b1 r1 = PRes.ok b r := h'
      cases h2
      exact ⟨a, hf⟩
    | none => rw [hf] at h'; simp at h'
  | err => rw [hp] at h; simp at h
  | panic => rw [hp] at h; simp at h

theorem fromYmdOpt_valid {y m dd : Nat} {d : NDate} (h : fromYmdOpt y m dd = some d) :
    validYmd d = true := by
  unfold fromYmdOpt at h
  split at h
  · rename_i hc
    cases h
    simp only [validYmd, Bool.and_eq_true, decide_eq_true_eq]
    exact ⟨⟨⟨hc.1, hc.2.1⟩, hc.2.2.1⟩, hc.2.2.2⟩
  · cases h

theorem chronoParseYmd_valid {s : List Char} {d : NDate} (h : chronoParseYmd s = some d) :
    validYmd d = true := by
  unfold chronoParseYmd at h
  simp only [Option.bind_eq_some] at h
  obtain ⟨yp, -, h⟩ := h
  obtain ⟨s2, -, h⟩ := h
  obtain ⟨mp, -, h⟩ := h
  obtain ⟨s4, -, h⟩ := h
  obtain ⟨dp, -, h⟩ := h
  split at h
  · exact fromYmdOpt_valid h
  · cases h

/-- C7 counterexample: the date segment is not restricted to a two-digit month
(or four-two-two digit shape) — `"nightly-2023-1-15"`, whose month has a single
digit, is accepted with a present date. -/
theorem c7_date_format_counterexample :
    Toolchain.from_str ("nightly-2023-1-15".toList)
      = .ok ⟨.Nightly, some ⟨2023, 1, 15⟩, none⟩ := by
  decide

/-- C7 amended: the optional date segment consists of three hyphen-separated
digit runs, validated by chrono's `%Y-%m-%d` parser (which accepts one to four
year digits and one or two month/day digits), and must denote a real calendar
date: every date the parser produces is calendar-valid, and digit-shaped but
invalid dates such as month 13 or day 31 in a 30-day month are rejected. -/
theorem c7_date_calendar_validation :
    (∀ (input : List Char) (d : NDate) (rest : List Char),
      Toolchain.nom_parse_date input = .ok d rest → validYmd d = true) ∧
    Toolchain.nom_parse_date ("2023-13-01".toList) = .err ∧
    Toolchain.nom_parse_date ("2023-04-31".toList) = .err ∧
    Toolchain.nom_parse_date ("2023-1-15".toList) = .ok ⟨2023, 1, 15⟩ [] := by
  refine ⟨fun input d rest h => ?_, by decide, by decide, by decide⟩
  unfold Toolchain.nom_parse_date at h
  obtain ⟨a, hf⟩ := mapRes_ok_elim h
  exact chronoParseYmd_valid hf

theorem c7_date_calendar_validation_witness : validYmd ⟨2023, 1, 15⟩ = true :=
  c7_date_calendar_validation.1 ("2023-01-15".toList) ⟨2023, 1, 15⟩ [] (by decide)

/-! C1 and C5: the `Display for Toolchain` impl writes `"{channel}{date}{host}"`
with no `-` separators before the optional segments, so rendering a parsed
toolchain that has a host (or date) does not reproduce the input, and the
rendered text no longer parses. -/

/-- C1 (code evaluated at the failing input): `"stable-x86_64-unknown-linux-gnu"`
parses, but rendering the parsed toolchain yields
`"stablex86_64-unknown-linux-gnu"` — the `-` before the host is dropped, so
`render(parse(s)) ≠ s`. -/
theorem c1_render_drops_separator :
    Toolchain.from_str ("stable-x86_64-unknown-linux-gnu".toList)
      = .ok ⟨.Stable, none, some ⟨.x86_64, some .Unknown, .Linux .GNU⟩⟩ ∧
    Toolchain.render ⟨.Stable, none, some ⟨.x86_64, some .Unknown, .Linux .GNU⟩⟩
      = "stablex86_64-unknown-linux-gnu".toList := by
  decide

/-- C5 (code evaluated at the failing input): for
`s = "stable-x86_64-unknown-linux-gnu"`, `parse(s)` succeeds but
`parse(render(parse(s)))` fails, because the rendering drops the `-` before the
host segment; idempotence through rendering does not hold. -/
theorem c5_reparse_of_render_fails :
    Toolchain.from_str ("stable-x86_64-unknown-linux-gnu".toList)
      = .ok ⟨.Stable, none, some ⟨.x86_64, some .Unknown, .Linux .GNU⟩⟩ ∧
    Toolchain.from_str
      (Toolchain.render ⟨.Stable, none, some ⟨.x86_64, some .Unknown, .Linux .GNU⟩⟩)
      = .err := by
  decide

/-! C8: keyword matching is strictly exact-case. -/

theorem caseVariant_length : ∀ {ks s : List Char}, caseVariant ks s = true → s.length = ks.length := by
  intro ks
  induction ks with
  | nil =>
    intro s h
    cases s with
    | nil => rfl
    | cons c cs => simp [caseVariant] at h
  | cons k ks ih =>
    intro s h
    cases s with
    | nil => simp [caseVariant] at h
    | cons c cs =>
      simp only [caseVariant, Bool.and_eq_true] at h
      simp [ih h.2]

theorem caseVariant_cons_elim {k : Char} {ks s : List Char} (h : caseVariant (k :: ks) s = true) :
    ∃ c cs, s = c :: cs ∧ (c = k ∨ c = upperAscii k) ∧ caseVariant ks cs = true := by
  cases s with
  | nil => simp [caseVariant] at h
  | cons c cs =>
    simp only [caseVariant, Bool.and_eq_true, Bool.or_eq_true, beq_iff_eq] at h
    exact ⟨c, cs, rfl, h.1, h.2⟩

theorem channel_from_str_err_of_all_err (s : List Char)
    (h1 : Nom.tag Channel.STABLE_STR s = .err) (h2 : Nom.tag Channel.BETA_STR s = .err)
    (h3 : Nom.tag Channel.NIGHTLY_STR s = .err) (h4 : Nom.digit1 s = .err) :
    Channel.from_str s = .err := by
  have hsimple : Channel.nom_parse_simple s = .err := by
    unfold Channel.nom_parse_simple
    rw [(alt_of_err ((alt_of_err h1).trans h2)).trans h3]
  have hmaj : Nom.mapRes (Nom.terminated Nom.digit1 (Nom.tag ['.'])) parseUsize s = .err := by
    unfold Nom.terminated
    exact mapRes_eq_of_err (bindP_eq_of_err h4)
  have hmm : ChannelVersion.nom_parse_major_minor s = .err := by
    unfold ChannelVersion.nom_parse_major_minor
    exact bindP_eq_of_err hmaj
  have hmmp : ChannelVersion.nom_parse_major_minor_patch s = .err := by
    unfold ChannelVersion.nom_parse_major_minor_patch
    exact bindP_eq_of_err hmaj
  have hver : Channel.nom_parse_version s = .err := by
    unfold Channel.nom_parse_version ChannelVersion.nom_parse
    exact bindP_eq_of_err ((alt_of_err hmm).trans hmmp)
  have hch : Channel.nom_parse s = .err := by
    unfold Channel.nom_parse
    exact (alt_of_err hsimple).trans hver
  unfold Channel.from_str
  rw [allConsuming_eq_of_err hch]
  rfl

theorem profile_from_str_err_of_tags_err (s : List Char)
    (h1 : Nom.tag Profile.RELEASE_STR s = .err) (h2 : Nom.tag Profile.DEBUG_STR s = .err) :
    Profile.from_str s = .err := by
  have hp : Profile.nom_parse s = .err := by
    unfold Profile.nom_parse
    rw [(alt_of_err h1).trans h2]
  unfold Profile.from_str
  rw [allConsuming_eq_of_err hp]
  rfl

/-- C8: keyword matching is strictly exact-case ASCII: every uppercase or
mixed-case variant of `stable`, `beta`, `nightly`, `release` or `debug` fails
where the all-lowercase spelling succeeds. -/
theorem c8_exact_case_keywords :
    (∀ s : List Char, caseVariant Channel.STABLE_STR s = true → s ≠ Channel.STABLE_STR →
      Channel.from_str s = .err) ∧
    (∀ s : List Char, caseVariant Channel.BETA_STR s = true → s ≠ Channel.BETA_STR →
      Channel.from_str s = .err) ∧
    (∀ s : List Char, caseVariant Channel.NIGHTLY_STR s = true → s ≠ Channel.NIGHTLY_STR →
      Channel.from_str s = .err) ∧
    (∀ s : List Char, caseVariant Profile.RELEASE_STR s = true → s ≠ Profile.RELEASE_STR →
      Profile.from_str s = .err) ∧
    (∀ s : List Char, caseVariant Profile.DEBUG_STR s = true → s ≠ Profile.DEBUG_STR →
      Profile.from_str s = .err) ∧
    Channel.from_str Channel.STABLE_STR = .ok .Stable ∧
    Profile.from_str Profile.RELEASE_STR = .ok .Release := by
  refine ⟨?_, ?_, ?_, ?_, ?_, by decide, by decide⟩
  · intro s hv hne
    obtain ⟨c, cs, hs, hc, -⟩ := caseVariant_cons_elim hv
    subst hs
    refine channel_from_str_err_of_all_err _
      (tag_err_of_length_ne (caseVariant_length hv) hne) ?_ ?_ ?_
    · rcases hc with rfl | rfl <;> exact tag_err_of_head_ne rfl rfl (by decide)
    · rcases hc with rfl | rfl <;> exact tag_err_of_head_ne rfl rfl (by decide)
    · apply digit1_err
      rw [headIs_cons]
      rcases hc with rfl | rfl <;> decide
  · intro s hv hne
    obtain ⟨c, cs, hs, hc, -⟩ := caseVariant_cons_elim hv
    subst hs
    refine channel_from_str_err_of_all_err _ ?_
      (tag_err_of_length_ne (caseVariant_length hv) hne) ?_ ?_
    · rcases hc with rfl | rfl <;> exact tag_err_of_head_ne rfl rfl (by decide)
    · rcases hc with rfl | rfl <;> exact tag_err_of_head_ne rfl rfl (by decide)
    · apply digit1_err
      rw [headIs_cons]
      rcases hc with rfl | rfl <;> decide
  · intro s hv hne
    obtain ⟨c, cs, hs, hc, -⟩ := caseVariant_cons_elim hv
    subst hs
    refine channel_from_str_err_of_all_err _ ?_ ?_
      (tag_err_of_length_ne (caseVariant_length hv) hne) ?_
    · rcases hc with rfl | rfl <;> exact tag_err_of_head_ne rfl rfl (by decide)
    · rcases hc with rfl | rfl <;> exact tag_err_of_head_ne rfl rfl (by decide)
    · apply digit1_err
      rw [headIs_cons]
      rcases hc with rfl | rfl <;> decide
  · intro s hv hne
    obtain ⟨c, cs, hs, hc, -⟩ := caseVariant_cons_elim hv
    subst hs
    refine profile_from_str_err_of_tags_err _
      (tag_err_of_length_ne (caseVariant_length hv) hne) ?_
    rcases hc with rfl | rfl <;> exact tag_err_of_head_ne rfl rfl (by decide)
  · intro s hv hne
    obtain ⟨c, cs, hs, hc, -⟩ := caseVariant_cons_elim hv
    subst hs
    exact profile_from_str_err_of_tags_err _
      (by rcases hc with rfl | rfl <;> exact tag_err_of_head_ne rfl rfl (by decide))
      (tag_err_of_length_ne (caseVariant_length hv) hne)

theorem c8_exact_case_keywords_witness :
    Channel.from_str ("STABLE".toList) = .err ∧
    Channel.from_str ("Stable".toList) = .err ∧
    Profile.from_str ("Release".toList) = .err :=
  ⟨c8_exact_case_keywords.1 ("STABLE".toList) (by decide) (by decide),
   c8_exact_case_keywords.1 ("Stable".toList) (by decide) (by decide),
   c8_exact_case_keywords.2.2.2.1 ("Release".toList) (by decide) (by decide)⟩

/-! C10: a channel followed by a digit-shaped but invalid date makes the whole
toolchain parse fail. -/

theorem takeWhile_append_left (p : Char → Bool) (xs ys : List Char) (hx : xs.all p = true) :
    (xs ++ ys).takeWhile p = xs ++ ys.takeWhile p := by
  induction xs with
  | nil => simp
  | cons a as ih =>
    simp only [List.all_cons, Bool.and_eq_true] at hx
    simp [List.takeWhile_cons, hx.1, ih hx.2]

theorem dropWhile_append_left (p : Char → Bool) (xs ys : List Char) (hx : xs.all p = true) :
    (xs ++ ys).dropWhile p = ys.dropWhile p := by
  induction xs with
  | nil => simp
  | cons a as ih =>
    simp only [List.all_cons, Bool.and_eq_true] at hx
    simp [List.dropWhile_cons, hx.1, ih hx.2]

theorem takeWhile_all (p : Char → Bool) (l : List Char) : ((l.takeWhile p).all p) = true := by
  induction l with
  | nil => rfl
  | cons a as ih =>
    by_cases h : p a = true
    · simp [List.takeWhile_cons, h, ih]
    · simp [List.takeWhile_cons, h]

theorem takeWhile_eq_self_of_all (p : Char → Bool) (l : List Char) (h : l.all p = true) :
    l.takeWhile p = l := by
  have := takeWhile_append_left p l [] h
  simpa using this

theorem headIs_of_all_ne_nil (p : Char → Bool) {l : List Char} (hne : l ≠ [])
    (h : l.all p = true) : headIs p l = true := by
  cases l with
  | nil => exact absurd rfl hne
  | cons c cs =>
    simp only [List.all_cons, Bool.and_eq_true] at h
    simp [headIs, h.1]

theorem digit1_all_digits_append (xs ys : List Char) (hne : xs ≠ [])
    (hx : xs.all Char.isDigit = true) :
    Nom.digit1 (xs ++ ys) = .ok (xs ++ ys.takeWhile Char.isDigit) (ys.dropWhile Char.isDigit) := by
  unfold Nom.digit1
  rw [takeWhile_append_left _ xs ys hx, dropWhile_append_left _ xs ys hx]
  cases xs with
  | nil => exact absurd rfl hne
  | cons a as => rfl

theorem scanNumber_exact (w : Nat) (xs ys : List Char) (hne : xs ≠ [])
    (hx : xs.all Char.isDigit = true) (hlen : xs.length = w)
    (hy : headIs Char.isDigit ys = false) :
    scanNumber w (xs ++ ys) = some (digitsToNat xs, ys) := by
  unfold scanNumber
  rw [takeWhile_append_all _ xs ys hx hy, ← hlen, List.take_length]
  have hempty : xs.isEmpty = false := by
    cases xs with
    | nil => exact absurd rfl hne
    | cons a as => rfl
  simp [hempty, List.drop_left]

theorem scanNumber_digits_trailing (w : Nat) (xs ys : List Char) (hne : xs ≠ [])
    (hx : xs.all Char.isDigit = true) (hlen : xs.length = w) (hy : ys.all Char.isDigit = true) :
    scanNumber w (xs ++ ys) = some (digitsToNat xs, ys) := by
  unfold scanNumber
  have hall : (xs ++ ys).all Char.isDigit = true := by
    simp only [List.all_append, Bool.and_eq_true]
    exact ⟨hx, hy⟩
  rw [takeWhile_eq_self_of_all _ _ hall, ← hlen, List.take_left]
  have hempty : xs.isEmpty = false := by
    cases xs with
    | nil => exact absurd rfl hne
    | cons a as => rfl
  simp [hempty, List.drop_left]

theorem shaped442_elim {y m d : List Char} (h : shaped442 y m d = true) :
    (y.length = 4 ∧ y.all Char.isDigit = true) ∧ (m.length = 2 ∧ m.all Char.isDigit = true) ∧
      (d.length = 2 ∧ d.all Char.isDigit = true) := by
  simp only [shaped442, Bool.and_eq_true, beq_iff_eq] at h
  exact ⟨⟨h.1.1.1.1.1, h.1.1.1.1.2⟩, ⟨h.1.1.1.2, h.1.1.2⟩, ⟨h.1.2, h.2⟩⟩

theorem ne_nil_of_length_pos {l : List Char} {n : Nat} (h : l.length = n) (hn : 0 < n) :
    l ≠ [] := by
  intro he
  rw [he] at h
  simp at h
  omega

theorem chrono_none_with_digit_suffix (y m d dp : List Char) (hsh : shaped442 y m d = true)
    (hdp : dp.all Char.isDigit = true)
    (hinv : chronoParseYmd (y ++ '-' :: (m ++ '-' :: d)) = none) :
    chronoParseYmd (y ++ '-' :: (m ++ '-' :: (d ++ dp))) = none := by
  obtain ⟨⟨hy4, hyd⟩, ⟨hm2, hmd⟩, ⟨hd2, hdd⟩⟩ := shaped442_elim hsh
  cases dp with
  | nil => simpa using hinv
  | cons c dp' =>
    have hyne : y ≠ [] := ne_nil_of_length_pos hy4 (by omega)
    have hmne : m ≠ [] := ne_nil_of_length_pos hm2 (by omega)
    have hdne : d ≠ [] := ne_nil_of_length_pos hd2 (by omega)
    unfold chronoParseYmd
    rw [scanNumber_exact 4 y ('-' :: (m ++ '-' :: (d ++ c :: dp'))) hyne hyd hy4
      (by rw [headIs_cons]; decide)]
    simp only [Option.some_bind]
    rw [show expectDash ('-' :: (m ++ '-' :: (d ++ c :: dp')))
      = some (m ++ '-' :: (d ++ c :: dp')) from rfl]
    simp only [Option.some_bind]
    rw [scanNumber_exact 2 m ('-' :: (d ++ c :: dp')) hmne hmd hm2
      (by rw [headIs_cons]; decide)]
    simp only [Option.some_bind]
    rw [show expectDash ('-' :: (d ++ c :: dp')) = some (d ++ c :: dp') from rfl]
    simp only [Option.some_bind]
    rw [scanNumber_digits_trailing 2 d (c :: dp') hdne hdd hd2 hdp]
    simp only [Option.some_bind]
    rfl

theorem headIs_append_left (p : Char → Bool) (xs ys : List Char) (h : headIs p xs = true) :
    headIs p (xs ++ ys) = true := by
  cases xs with
  | nil => simp [headIs] at h
  | cons c cs =>
    rw [headIs_cons] at h
    rw [List.cons_append, headIs_cons]
    exact h

theorem digit1_natToChars (n : Nat) (rest : List Char) (h : headIs Char.isDigit rest = false) :
    Nom.digit1 (natToChars n ++ rest) = .ok (natToChars n) rest :=
  digit1_ok _ _ (natToChars_ne_nil n) (natToChars_all_digit n) h

theorem tag_dot_err_of_head {rest : List Char} (h : rest.head? ≠ some '.') :
    Nom.tag ['.'] rest = .err := by
  cases rest with
  | nil => exact tag_err_nil '.' []
  | cons c cs =>
    refine tag_err_head fun he => ?_
    rw [he] at h
    simp at h

theorem major_component_ok (a : Nat) (ha : a < 2 ^ 64) (rest2 : List Char) :
    Nom.mapRes (Nom.terminated Nom.digit1 (Nom.tag ['.'])) parseUsize
      (natToChars a ++ '.' :: rest2) = .ok a rest2 := by
  have hd : Nom.digit1 (natToChars a ++ '.' :: rest2) = .ok (natToChars a) ('.' :: rest2) :=
    digit1_natToChars a ('.' :: rest2) (by rw [headIs_cons]; decide)
  have ht : Nom.tag ['.'] ('.' :: rest2) = .ok ['.'] rest2 := tag_append ['.'] rest2
  have hterm : Nom.terminated Nom.digit1 (Nom.tag ['.']) (natToChars a ++ '.' :: rest2)
      = .ok (natToChars a) rest2 := by
    unfold Nom.terminated
    rw [bindP_eq_of_ok hd, bindP_eq_of_ok ht]
  exact mapRes_eq_some hterm (parseUsize_natToChars ha)

theorem last_component_ok (b : Nat) (hb : b < 2 ^ 64) {rest : List Char}
    (h : headIs Char.isDigit rest = false) :
    Nom.mapRes Nom.digit1 parseUsize (natToChars b ++ rest) = .ok b rest :=
  mapRes_eq_some (digit1_natToChars b rest h) (parseUsize_natToChars hb)

theorem version_render_parse (v : ChannelVersion) (hb : channelBounded (.Version v) = true)
    {rest : List Char} (h1 : headIs Char.isDigit rest = false) (h2 : rest.head? ≠ some '.') :
    ChannelVersion.nom_parse (v.render ++ rest) = .ok v rest := by
  cases v with
  | MajorMinor a b =>
    simp only [channelBounded, Bool.and_eq_true, decide_eq_true_eq] at hb
    have heq : (ChannelVersion.MajorMinor a b).render ++ rest
        = natToChars a ++ '.' :: (natToChars b ++ rest) := by
      simp [ChannelVersion.render]
    rw [heq]
    have hmm : ChannelVersion.nom_parse_major_minor (natToChars a ++ '.' :: (natToChars b ++ rest))
        = .ok (.MajorMinor a b) rest := by
      unfold ChannelVersion.nom_parse_major_minor
      rw [bindP_eq_of_ok (major_component_ok a hb.1 (natToChars b ++ rest)),
        bindP_eq_of_ok (last_component_ok b hb.2 h1),
        bindP_eq_of_ok (peek_eq_of_ok (notP_eq_of_err (tag_dot_err_of_head h2)))]
    unfold ChannelVersion.nom_parse
    exact alt_ok_left hmm
  | MajorMinorPatch a b c =>
    simp only [channelBounded, Bool.and_eq_true, decide_eq_true_eq] at hb
    have heq : (ChannelVersion.MajorMinorPatch a b c).render ++ rest
        = natToChars a ++ '.' :: (natToChars b ++ '.' :: (natToChars c ++ rest)) := by
      simp [ChannelVersion.render]
    rw [heq]
    have hmm : ChannelVersion.nom_parse_major_minor
        (natToChars a ++ '.' :: (natToChars b ++ '.' :: (natToChars c ++ rest))) = .err := by
      unfold ChannelVersion.nom_parse_major_minor
      rw [bindP_eq_of_ok (major_component_ok a hb.1.1 (natToChars b ++ '.' :: (natToChars c ++ rest))),
        bindP_eq_of_ok (last_component_ok b hb.1.2 (by rw [headIs_cons]; decide))]
      have hpk : Nom.peek (Nom.notP (Nom.tag ['.'])) ('.' :: (natToChars c ++ rest)) = .err :=
        peek_eq_of_err (notP_eq_of_ok (tag_append ['.'] (natToChars c ++ rest)))
      exact bindP_eq_of_err hpk
    have hmmp : ChannelVersion.nom_parse_major_minor_patch
        (natToChars a ++ '.' :: (natToChars b ++ '.' :: (natToChars c ++ rest)))
        = .ok (.MajorMinorPatch a b c) rest := by
      unfold ChannelVersion.nom_parse_major_minor_patch
      rw [bindP_eq_of_ok (major_component_ok a hb.1.1 (natToChars b ++ '.' :: (natToChars c ++ rest))),
        bindP_eq_of_ok (major_component_ok b hb.1.2 (natToChars c ++ rest)),
        bindP_eq_of_ok (last_component_ok c hb.2 h1)]
    unfold ChannelVersion.nom_parse
    exact (alt_of_err hmm).trans hmmp

theorem tag_err_of_head_digit {t input : List Char} {a : Char} (ht : t.head? = some a)
    (ha : a.isDigit = false) (hd : headIs Char.isDigit input = true) : Nom.tag t input = .err := by
  cases input with
  | nil => simp [headIs] at hd
  | cons c cs =>
    rw [headIs_cons] at hd
    refine tag_err_of_head_ne ht rfl fun he => ?_
    rw [he, hd] at ha
    cases ha

theorem channel_render_parse (ch : Channel) (hb : channelBounded ch = true) {rest : List Char}
    (h1 : headIs Char.isDigit rest = false) (h2 : rest.head? ≠ some '.') :
    Channel.nom_parse (ch.render ++ rest) = .ok ch rest := by
  cases ch with
  | Stable =>
    have hsimple : Channel.nom_parse_simple (Channel.STABLE_STR ++ rest) = .ok .Stable rest := by
      unfold Channel.nom_parse_simple
      rw [alt_ok_left (alt_ok_left (tag_append Channel.STABLE_STR rest))]
      simp [(by decide : Channel.ofTag Channel.STABLE_STR = some Channel.Stable)]
    unfold Channel.nom_parse Channel.render
    exact alt_ok_left hsimple
  | Beta =>
    have hst : Nom.tag Channel.STABLE_STR (Channel.BETA_STR ++ rest) = .err :=
      tag_err_of_head_ne rfl rfl (by decide)
    have hsimple : Channel.nom_parse_simple (Channel.BETA_STR ++ rest) = .ok .Beta rest := by
      unfold Channel.nom_parse_simple
      rw [alt_ok_left ((alt_of_err hst).trans (tag_append Channel.BETA_STR rest))]
      simp [(by decide : Channel.ofTag Channel.BETA_STR = some Channel.Beta)]
    unfold Channel.nom_parse Channel.render
    exact alt_ok_left hsimple
  | Nightly =>
    have hst : Nom.tag Channel.STABLE_STR (Channel.NIGHTLY_STR ++ rest) = .err :=
      tag_err_of_head_ne rfl rfl (by decide)
    have hbe : Nom.tag Channel.BETA_STR (Channel.NIGHTLY_STR ++ rest) = .err :=
      tag_err_of_head_ne rfl rfl (by decide)
    have hsimple : Channel.nom_parse_simple (Channel.NIGHTLY_STR ++ rest) = .ok .Nightly rest := by
      unfold Channel.nom_parse_simple
      rw [(show Nom.alt (Nom.alt (Nom.tag Channel.STABLE_STR) (Nom.tag Channel.BETA_STR))
          (Nom.tag Channel.NIGHTLY_STR) (Channel.NIGHTLY_STR ++ rest)
          = .ok Channel.NIGHTLY_STR rest from
        (alt_of_err ((alt_of_err hst).trans hbe)).trans (tag_append Channel.NIGHTLY_STR rest))]
      simp [(by decide : Channel.ofTag Channel.NIGHTLY_STR = some Channel.Nightly)]
    unfold Channel.nom_parse Channel.render
    exact alt_ok_left hsimple
  | Version v =>
    have hdig : headIs Char.isDigit (v.render ++ rest) = true := by
      cases v with
      | MajorMinor a b =>
        have heq2 : (ChannelVersion.MajorMinor a b).render ++ rest
            = natToChars a ++ ('.' :: natToChars b ++ rest) := by
          simp [ChannelVersion.render]
        rw [heq2]
        exact headIs_append_left _ _ _ (headIs_digit_natToChars a)
      | MajorMinorPatch a b c =>
        have heq2 : (ChannelVersion.MajorMinorPatch a b c).render ++ rest
            = natToChars a ++ ('.' :: natToChars b ++ '.' :: natToChars c ++ rest) := by
          simp [ChannelVersion.render]
        rw [heq2]
        exact headIs_append_left _ _ _ (headIs_digit_natToChars a)
    have hst : Nom.tag Channel.STABLE_STR (v.render ++ rest) = .err :=
      tag_err_of_head_digit rfl (by decide) hdig
    have hbe : Nom.tag Channel.BETA_STR (v.render ++ rest) = .err :=
      tag_err_of_head_digit rfl (by decide) hdig
    have hni : Nom.tag Channel.NIGHTLY_STR (v.render ++ rest) = .err :=
      tag_err_of_head_digit rfl (by decide) hdig
    have hsimple : Channel.nom_parse_simple (v.render ++ rest) = .err := by
      unfold Channel.nom_parse_simple
      rw [(alt_of_err ((alt_of_err hst).trans hbe)).trans hni]
    have hver : Channel.nom_parse_version (v.render ++ rest) = .ok (.Version v) rest := by
      unfold Channel.nom_parse_version
      rw [bindP_eq_of_ok (version_render_parse v hb h1 h2)]
    have hren : Channel.render (.Version v) = v.render := rfl
    unfold Channel.nom_parse
    rw [hren]
    exact (alt_of_err hsimple).trans hver

theorem nom_parse_date_err (y m d suf : List Char) (hsh : shaped442 y m d = true)
    (hinv : chronoParseYmd (y ++ '-' :: (m ++ '-' :: d)) = none) :
    Toolchain.nom_parse_date (y ++ '-' :: (m ++ '-' :: (d ++ suf))) = .err := by
  obtain ⟨⟨hy4, hyd⟩, ⟨hm2, hmd⟩, ⟨hd2, hdd⟩⟩ := shaped442_elim hsh
  have hyne : y ≠ [] := ne_nil_of_length_pos hy4 (by omega)
  have hmne : m ≠ [] := ne_nil_of_length_pos hm2 (by omega)
  have hdne : d ≠ [] := ne_nil_of_length_pos hd2 (by omega)
  have h1 : Nom.digit1 (y ++ '-' :: (m ++ '-' :: (d ++ suf)))
      = .ok y ('-' :: (m ++ '-' :: (d ++ suf))) :=
    digit1_ok y _ hyne hyd (by rw [headIs_cons]; decide)
  have h2 : Nom.tag ['-'] ('-' :: (m ++ '-' :: (d ++ suf)))
      = .ok ['-'] (m ++ '-' :: (d ++ suf)) :=
    tag_append ['-'] (m ++ '-' :: (d ++ suf))
  have h3 : Nom.digit1 (m ++ '-' :: (d ++ suf)) = .ok m ('-' :: (d ++ suf)) :=
    digit1_ok m _ hmne hmd (by rw [headIs_cons]; decide)
  have h4 : Nom.tag ['-'] ('-' :: (d ++ suf)) = .ok ['-'] (d ++ suf) :=
    tag_append ['-'] (d ++ suf)
  have h5 : Nom.digit1 (d ++ suf)
      = .ok (d ++ suf.takeWhile Char.isDigit) (suf.dropWhile Char.isDigit) :=
    digit1_all_digits_append d suf hdne hdd
  have hinner : (Nom.bindP Nom.digit1 fun _ =>
      Nom.bindP (Nom.tag ['-']) fun _ =>
      Nom.bindP Nom.digit1 fun _ =>
      Nom.bindP (Nom.tag ['-']) fun _ =>
      Nom.digit1) (y ++ '-' :: (m ++ '-' :: (d ++ suf)))
      = .ok (d ++ suf.takeWhile Char.isDigit) (suf.dropWhile Char.isDigit) := by
    rw [bindP_eq_of_ok h1, bindP_eq_of_ok h2, bindP_eq_of_ok h3, bindP_eq_of_ok h4]
    exact h5
  have hsplit : suf = suf.takeWhile Char.isDigit ++ suf.dropWhile Char.isDigit :=
    (List.takeWhile_append_dropWhile Char.isDigit suf).symm
  have hIn : y ++ '-' :: (m ++ '-' :: (d ++ suf))
      = (y ++ '-' :: (m ++ '-' :: (d ++ suf.takeWhile Char.isDigit)))
          ++ suf.dropWhile Char.isDigit := by
    conv_lhs => rw [hsplit]
    simp [List.append_assoc]
  have hrec : Nom.recognize (Nom.bindP Nom.digit1 fun _ =>
      Nom.bindP (Nom.tag ['-']) fun _ =>
      Nom.bindP Nom.digit1 fun _ =>
      Nom.bindP (Nom.tag ['-']) fun _ =>
      Nom.digit1) (y ++ '-' :: (m ++ '-' :: (d ++ suf)))
      = .ok (y ++ '-' :: (m ++ '-' :: (d ++ suf.takeWhile Char.isDigit)))
          (suf.dropWhile Char.isDigit) := by
    have htake : (y ++ '-' :: (m ++ '-' :: (d ++ suf))).take
        ((y ++ '-' :: (m ++ '-' :: (d ++ suf))).length - (suf.dropWhile Char.isDigit).length)
        = y ++ '-' :: (m ++ '-' :: (d ++ suf.takeWhile Char.isDigit)) := by
      rw [hIn, List.length_append, Nat.add_sub_cancel, List.take_left]
    rw [recognize_eq_of_ok hinner, htake]
  have hchrono : chronoParseYmd (y ++ '-' :: (m ++ '-' :: (d ++ suf.takeWhile Char.isDigit)))
      = none :=
    chrono_none_with_digit_suffix y m d (suf.takeWhile Char.isDigit) hsh
      (takeWhile_all _ suf) hinv
  unfold Toolchain.nom_parse_date
  exact mapRes_eq_none hrec hchrono

theorem head_cons_ne_some {c c' : Char} (hne : c ≠ c') (X : List Char) :
    (c :: X).head? ≠ some c' := by
  intro h
  rw [List.head?_cons, Option.some.injEq] at h
  exact hne h

theorem arch_err_of_digit_head {input : List Char} (hd : headIs Char.isDigit input = true) :
    Architecture.nom_parse input = .err := by
  have h1 : Nom.tag Architecture.I686_STR input = .err :=
    tag_err_of_head_digit rfl (by decide) hd
  have h2 : Nom.tag Architecture.X86_64_STR input = .err :=
    tag_err_of_head_digit rfl (by decide) hd
  unfold Architecture.nom_parse
  rw [(alt_of_err h1).trans h2]

theorem host_err_of_digit_head {input : List Char} (hd : headIs Char.isDigit input = true) :
    Host.nom_parse input = .err := by
  unfold Host.nom_parse
  exact bindP_eq_of_err (arch_err_of_digit_head hd)

/-- C10: for every toolchain input of the form channel + `-` + digit-shaped but
invalid `YYYY-MM-DD` date + any suffix, the whole parse fails instead of
silently succeeding with `date = None`: the tuple parser backtracks out of both
the date and the host alternatives (a host cannot begin with a digit), leaving
the channel parsed and a non-empty remainder that the `all_consuming` wrapper
rejects. -/
theorem c10_channel_invalid_date_fails :
    ∀ (ch : Channel) (y m d suf : List Char),
      channelBounded ch = true → shaped442 y m d = true →
      chronoParseYmd (y ++ '-' :: (m ++ '-' :: d)) = none →
      Toolchain.nom_parse (ch.render ++ '-' :: (y ++ '-' :: (m ++ '-' :: (d ++ suf))))
          = .ok ⟨ch, none, none⟩ ('-' :: (y ++ '-' :: (m ++ '-' :: (d ++ suf)))) ∧
        Toolchain.from_str (ch.render ++ '-' :: (y ++ '-' :: (m ++ '-' :: (d ++ suf)))) = .err := by
  intro ch y m d suf hb hsh hinv
  obtain ⟨⟨hy4, hyd⟩, -, -⟩ := shaped442_elim hsh
  have hyne : y ≠ [] := ne_nil_of_length_pos hy4 (by omega)
  have hch : Channel.nom_parse (ch.render ++ '-' :: (y ++ '-' :: (m ++ '-' :: (d ++ suf))))
      = .ok ch ('-' :: (y ++ '-' :: (m ++ '-' :: (d ++ suf)))) :=
    channel_render_parse ch hb (by rw [headIs_cons]; decide) (head_cons_ne_some (by decide) _)
  have ht : Nom.tag ['-'] ('-' :: (y ++ '-' :: (m ++ '-' :: (d ++ suf))))
      = .ok ['-'] (y ++ '-' :: (m ++ '-' :: (d ++ suf))) :=
    tag_append ['-'] (y ++ '-' :: (m ++ '-' :: (d ++ suf)))
  have hdate : Nom.preceded (Nom.tag ['-']) Toolchain.nom_parse_date
      ('-' :: (y ++ '-' :: (m ++ '-' :: (d ++ suf)))) = .err := by
    unfold Nom.preceded
    rw [bindP_eq_of_ok ht]
    exact nom_parse_date_err y m d suf hsh hinv
  have hhost : Nom.preceded (Nom.tag ['-']) Host.nom_parse
      ('-' :: (y ++ '-' :: (m ++ '-' :: (d ++ suf)))) = .err := by
    unfold Nom.preceded
    rw [bindP_eq_of_ok ht]
    exact host_err_of_digit_head (headIs_append_left _ _ _ (headIs_of_all_ne_nil _ hyne hyd))
  have hnom : Toolchain.nom_parse (ch.render ++ '-' :: (y ++ '-' :: (m ++ '-' :: (d ++ suf))))
      = .ok ⟨ch, none, none⟩ ('-' :: (y ++ '-' :: (m ++ '-' :: (d ++ suf)))) := by
    unfold Toolchain.nom_parse
    rw [bindP_eq_of_ok hch, bindP_eq_of_ok (opt_eq_of_err hdate),
      bindP_eq_of_ok (opt_eq_of_err hhost)]
  refine ⟨hnom, ?_⟩
  unfold Toolchain.from_str
  rw [allConsuming_eq_of_ok_cons hnom]
  rfl

theorem c10_channel_invalid_date_fails_witness :
    Toolchain.nom_parse (Channel.render .Nightly
        ++ '-' :: ("2023".toList ++ '-' :: ("13".toList ++ '-' :: ("01".toList ++ ([] : List Char)))))
        = .ok ⟨.Nightly, none, none⟩
          ('-' :: ("2023".toList ++ '-' :: ("13".toList ++ '-' :: ("01".toList ++ ([] : List Char))))) ∧
      Toolchain.from_str (Channel.render .Nightly
        ++ '-' :: ("2023".toList ++ '-' :: ("13".toList ++ '-' :: ("01".toList ++ ([] : List Char)))))
        = .err :=
  c10_channel_invalid_date_fails .Nightly ("2023".toList) ("13".toList) ("01".toList) []
    (by decide) (by decide) (by decide)
